import Mathlib

/-!
Shallow embedding of `pkg/consumer/consumer.go` from the htnn repository:
the consumer registry of a gateway data plane.  Go maps are embedded as
association lists whose list order stands for the (arbitrary) iteration
order of the map; JSON documents handled by `encoding/json` are embedded
as a JSON value tree (`JsonVal`), with `JsonDoc.invalid` standing for a
byte string that is not valid JSON.
-/

set_option autoImplicit false

namespace HTNN

/-- JSON values, modelling the documents handled by `encoding/json`. -/
inductive JsonVal where
  | str (s : String)
  | num (n : Int)
  | bool (b : Bool)
  | null
  | arr (elems : List JsonVal)
  | obj (fields : List (String × JsonVal))

/-- A JSON document: either a parseable JSON value or an invalid byte string. -/
inductive JsonDoc where
  | invalid (raw : String)
  | val (j : JsonVal)

/-- Association-list lookup, embedding Go map indexing `m[k]`. -/
def alookup {α : Type} : List (String × α) → String → Option α
  | [], _ => none
  | (k', v) :: rest, k => if k' = k then some v else alookup rest k

/-- Association-list store, embedding Go map assignment `m[k] = v`. -/
def aset {α : Type} : List (String × α) → String → α → List (String × α)
  | [], k, v => [(k, v)]
  | (k', v') :: rest, k, v =>
    if k' = k then (k', v) :: rest else (k', v') :: aset rest k v

/-- The keys of an association list have no duplicates (always true of a Go map). -/
def NodupKeys {α : Type} (m : List (String × α)) : Prop :=
  (m.map Prod.fst).Nodup

instance {α : Type} (m : List (String × α)) : Decidable (NodupKeys m) := by
  unfold NodupKeys; infer_instance

/-- A parsed, validated per-plugin consumer config (`api.PluginConsumerConfig`):
the core treats it as opaque except for `Index()`, embedded as the field
`index`; `content` carries the plugin-specific parsed payload. -/
structure PluginConsumerConfig where
  index : String
  content : String
deriving DecidableEq, Repr

/-- An auth-capable plugin (`plugins.ConsumerPlugin`): `unmarshalConfig`
embeds `protojson.Unmarshal` of a raw payload into `p.ConsumerConfig()`,
`validate` embeds `conf.Validate()` (returning `some msg` on failure). -/
structure ConsumerPlugin where
  unmarshalConfig : String → Except String PluginConsumerConfig
  validate : PluginConsumerConfig → Option String

/-- Result of `plugins.LoadHttpPlugin(name)` followed by the type assertion
`.(plugins.ConsumerPlugin)`: the plugin either is consumer-capable or not
(a plugin that exists but lacks the capability fails the assertion the same
way a missing plugin does). -/
inductive LoadedHttpPlugin where
  | consumer (p : ConsumerPlugin)
  | other

/-- A filter plugin's config parser (`p.ConfigParser.Parse(data.Config, nil)`)
and its opaque config factory, as returned by
`plugins.LoadHttpFilterConfigFactoryAndParser`. -/
structure FilterPlugin where
  parse : JsonVal → Except String JsonVal
  configFactory : String

/-- The plugin registry, an external collaborator of this package
(`mosn.io/htnn/pkg/plugins`): resolves plugin names. -/
structure PluginEnv where
  loadHttpPlugin : String → Option LoadedHttpPlugin
  loadHttpFilterConfigFactoryAndParser : String → Option FilterPlugin

/-- Modelled from the spec: `model.FilterConfig` (from
`pkg/filtermanager/model`, not under src/).  Per §6 of the spec the
snapshot's filter entries are `{pluginName: {config: rawConfigPayload, ...}}`,
so the struct carries a raw `config` payload (the only field the shown code
reads, as `data.Config`). -/
structure FilterConfig where
  config : JsonVal

/-- Modelled from the spec: `model.ParsedFilterConfig` (from
`pkg/filtermanager/model`, not under src/) — §4.2: the ordered result
entries are `(plugin name, parsed config, config factory reference)`. -/
structure ParsedFilterConfig where
  name : String
  parsedConfig : JsonVal
  configFactory : String

/-- The `Consumer` struct.  Go's `namespace` field is spelled `namespace_`
(`namespace` is a Lean keyword).  `auth`, `filters` and `consumerConfigs`
are Go maps, embedded as association lists in iteration order. -/
structure Consumer where
  consumerName : String := ""
  auth : List (String × String) := []
  filters : List (String × FilterConfig) := []
  namespace_ : String := ""
  resourceVersion : String := ""
  consumerConfigs : List (String × PluginConsumerConfig) := []
  filterConfigs : List ParsedFilterConfig := []

/-- Insertion of one pair into a key-sorted association list
(`encoding/json` serializes Go maps with sorted keys). -/
def insertByKey {α : Type} (p : String × α) : List (String × α) → List (String × α)
  | [] => [p]
  | q :: rest => if p.1 ≤ q.1 then p :: q :: rest else q :: insertByKey p rest

/-- Key-sort of an association list, as `encoding/json` does for Go maps. -/
def sortByKey {α : Type} : List (String × α) → List (String × α)
  | [] => []
  | p :: rest => insertByKey p (sortByKey rest)

/-- JSON encoding of the `auth` map (`map[string]string`). -/
def marshalAuth (auth : List (String × String)) : JsonVal :=
  .obj ((sortByKey auth).map (fun p => (p.1, .str p.2)))

/-- JSON encoding of one `model.FilterConfig`. -/
def FilterConfig.toJson (fc : FilterConfig) : JsonVal :=
  .obj [("config", fc.config)]

/-- JSON encoding of the `filters` map (`map[string]*model.FilterConfig`). -/
def marshalFilters (fs : List (String × FilterConfig)) : JsonVal :=
  .obj ((sortByKey fs).map (fun p => (p.1, p.2.toJson)))

/-- `Consumer.Marshal`: `json.Marshal(c)`.  Only the JSON-tagged fields
`name`, `auth`, `filters` are emitted (the lowercase fields are unexported
and `ConsumerConfigs`/`FilterConfigs` are tagged `json:"-"`); struct fields
appear in declaration order.  Total: as the source comments, marshalling
this struct cannot fail. -/
def Consumer.marshal (c : Consumer) : JsonVal :=
  .obj [("name", .str c.consumerName),
        ("auth", marshalAuth c.auth),
        ("filters", marshalFilters c.filters)]

/-- JSON decoding of one `model.FilterConfig`: an object whose `config`
member (last occurrence wins, other members ignored) becomes the payload;
decoding a non-object fails. -/
def FilterConfig.fromJson : JsonVal → Except String FilterConfig
  | .obj fields =>
    .ok (fields.foldl (fun fc p => if p.1 = "config" then ⟨p.2⟩ else fc) ⟨.null⟩)
  | .null => .ok ⟨.null⟩
  | _ => .error "cannot unmarshal non-object into model.FilterConfig"

/-- Decoding of a JSON object into the existing `auth` map: Go's decoder
merges into a pre-existing map, later duplicate keys win; a non-string
member value is a type error. -/
def decodeAuthInto (auth : List (String × String)) :
    List (String × JsonVal) → Except String (List (String × String))
  | [] => .ok auth
  | (k, .str s) :: rest => decodeAuthInto (aset auth k s) rest
  | (k, _) :: _ => .error ("cannot unmarshal non-string into auth value " ++ k)

/-- Decoding of a JSON object into the existing `filters` map. -/
def decodeFiltersInto (fs : List (String × FilterConfig)) :
    List (String × JsonVal) → Except String (List (String × FilterConfig))
  | [] => .ok fs
  | (k, v) :: rest =>
    match FilterConfig.fromJson v with
    | .ok fc => decodeFiltersInto (aset fs k fc) rest
    | .error e => .error e

/-- Field-by-field decoding of a JSON object into a `Consumer`, following
`encoding/json`: members are processed in order, unknown members are
ignored, a JSON `null` leaves a map field untouched, absent members leave
the receiver's fields unchanged, and unexported / `json:"-"` fields are
never written. -/
def unmarshalFields (c : Consumer) :
    List (String × JsonVal) → Except String Consumer
  | [] => .ok c
  | ("name", .str s) :: rest => unmarshalFields { c with consumerName := s } rest
  | ("name", _) :: _ => .error "cannot unmarshal non-string into name"
  | ("auth", .obj fs) :: rest =>
    match decodeAuthInto c.auth fs with
    | .ok a => unmarshalFields { c with auth := a } rest
    | .error e => .error e
  | ("auth", .null) :: rest => unmarshalFields c rest
  | ("auth", _) :: _ => .error "cannot unmarshal non-object into auth"
  | ("filters", .obj fs) :: rest =>
    match decodeFiltersInto c.filters fs with
    | .ok f => unmarshalFields { c with filters := f } rest
    | .error e => .error e
  | ("filters", .null) :: rest => unmarshalFields c rest
  | ("filters", _) :: _ => .error "cannot unmarshal non-object into filters"
  | (_, _) :: rest => unmarshalFields c rest

/-- `Consumer.Unmarshal`: `json.Unmarshal([]byte(s), c)` on receiver `c`.
Fails on invalid JSON or on a non-object, non-null document; a JSON `null`
is a no-op success, as in `encoding/json`. -/
def Consumer.unmarshal (c : Consumer) : JsonDoc → Except String Consumer
  | .invalid _ => .error "invalid character in JSON input"
  | .val (.obj fields) => unmarshalFields c fields
  | .val .null => .ok c
  | .val _ => .error "cannot unmarshal non-object into Consumer"

/-- The auth half of `Consumer.InitConfigs`: the loop over `c.Auth` that
fills `c.ConsumerConfigs`, returning the first error.  Branch order follows
the source: type assertion, `protojson.Unmarshal`, `Validate`, store. -/
def initAuthConfigs (env : PluginEnv)
    (acc : List (String × PluginConsumerConfig)) :
    List (String × String) → Except String (List (String × PluginConsumerConfig))
  | [] => .ok acc
  | (name, data) :: rest =>
    match env.loadHttpPlugin name with
    | some (.consumer p) =>
      match p.unmarshalConfig data with
      | .error e =>
        .error ("failed to unmarshal consumer config for plugin " ++ name ++ ": " ++ e)
      | .ok conf =>
        match p.validate conf with
        | some e =>
          .error ("failed to validate consumer config for plugin " ++ name ++ ": " ++ e)
        | none => initAuthConfigs env (aset acc name conf) rest
    | _ => .error ("plugin " ++ name ++ " is not for consumer")

/-- The filter half of `Consumer.InitConfigs`: the loop over `c.Filters`
that appends to `c.FilterConfigs`, returning the first error. -/
def initFilterConfigs (env : PluginEnv) (acc : List ParsedFilterConfig) :
    List (String × FilterConfig) → Except String (List ParsedFilterConfig)
  | [] => .ok acc
  | (name, data) :: rest =>
    match env.loadHttpFilterConfigFactoryAndParser name with
    | none => .error ("plugin " ++ name ++ " not found")
    | some p =>
      match p.parse data.config with
      | .error e => .error (e ++ " during parsing plugin " ++ name ++ " in consumer")
      | .ok conf =>
        initFilterConfigs env (acc ++ [⟨name, conf, p.configFactory⟩]) rest

/-- `Consumer.InitConfigs`: populate `ConsumerConfigs` from `Auth` and
`FilterConfigs` from `Filters`, failing on the first bad entry.  The Go
method mutates the receiver and returns an error; since a consumer whose
initialization fails is never published, the pure translation returns the updated
consumer on success. -/
def Consumer.initConfigs (env : PluginEnv) (c : Consumer) : Except String Consumer :=
  match initAuthConfigs env [] c.auth with
  | .error e => .error e
  | .ok cc =>
    match initFilterConfigs env [] c.filters with
    | .error e => .error e
    | .ok fc => .ok { c with consumerConfigs := cc, filterConfigs := fc }

/-- One entry of the control-plane snapshot: the version token
`fields["v"].GetStringValue()` and the serialized consumer body
`fields["d"].GetStringValue()` (embedded as the JSON document it parses to). -/
structure SnapshotEntry where
  v : String
  d : JsonDoc

/-- One namespace of the snapshot: consumer name to entry, in iteration order. -/
abbrev NamespaceSnapshot := List (String × SnapshotEntry)

/-- The full snapshot `*structpb.Struct`: namespace to namespace snapshot,
after the `GetStructValue`/`GetFields`/`GetStringValue` coercions. -/
abbrev Snapshot := List (String × NamespaceSnapshot)

/-- The package-level `resourceIndex`: namespace → consumer name → Consumer. -/
abbrev ResourceIndex := List (String × List (String × Consumer))

/-- The package-level `scopeIndex`: namespace → plugin → index key → Consumer. -/
abbrev ScopeIndex := List (String × List (String × List (String × Consumer)))

/-- The mutable package state of `pkg/consumer`: both indices. -/
structure RegistryState where
  resourceIndex : ResourceIndex
  scopeIndex : ScopeIndex

/-- The state at package init: `resourceIndex` freshly made and empty,
`scopeIndex` still nil (both embed as the empty list). -/
def initialRegistryState : RegistryState := ⟨[], []⟩

/-- The rebuild path of the per-entry loop body: `c.Unmarshal(s)` into a
fresh `Consumer`, set `c.namespace`, `c.InitConfigs()`, stamp
`c.resourceVersion`; `none` when either step fails (the entry is logged
and skipped). -/
def freshConsumer (env : PluginEnv) (ns : String) (e : SnapshotEntry) : Option Consumer :=
  match Consumer.unmarshal {} e.d with
  | .error _ => none
  | .ok c =>
    match Consumer.initConfigs env { c with namespace_ := ns } with
    | .error _ => none
    | .ok c' => some { c' with resourceVersion := e.v }

/-- The per-entry loop body of `updateConsumers`: reuse `currIdx[name]`
when present with an unchanged version token, otherwise rebuild. -/
def processEntry (env : PluginEnv) (ns : String) (currIdx : List (String × Consumer))
    (name : String) (e : SnapshotEntry) : Option Consumer :=
  match alookup currIdx name with
  | some currValue =>
    if currValue.resourceVersion = e.v then some currValue
    else freshConsumer env ns e
  | none => freshConsumer env ns e

/-- Whether the entry takes the rebuild path (`!ok || currValue.resourceVersion != v`). -/
def entryIsFresh (currIdx : List (String × Consumer)) (name : String)
    (e : SnapshotEntry) : Bool :=
  match alookup currIdx name with
  | some currValue => decide (currValue.resourceVersion ≠ e.v)
  | none => true

/-- One iteration of the per-namespace loop: insert the processed consumer
into `newIdx` (or skip it on failure).  The second component instruments
which names were freshly constructed (not reused) — the source's
observable "re-parse" work. -/
def stepEntry (env : PluginEnv) (ns : String) (currIdx : List (String × Consumer))
    (acc : List (String × Consumer) × List String) (p : String × SnapshotEntry) :
    List (String × Consumer) × List String :=
  match processEntry env ns currIdx p.1 p.2 with
  | some c =>
    (aset acc.1 p.1 c, if entryIsFresh currIdx p.1 p.2 then acc.2 ++ [p.1] else acc.2)
  | none => acc

/-- The per-namespace loop of phase 1 of `updateConsumers`: build `newIdx`
from the namespace's snapshot entries against the current `currIdx`. -/
def buildNamespace (env : PluginEnv) (ns : String) (currIdx : List (String × Consumer))
    (entries : NamespaceSnapshot) : List (String × Consumer) × List String :=
  entries.foldl (stepEntry env ns currIdx) ([], [])

/-- Phase 1 of `updateConsumers`: for each namespace in the snapshot, read
`currIdx := resourceIndex[ns]` (nil ⇒ empty), build `newIdx`, and assign
`resourceIndex[ns] = newIdx`.  The second component accumulates the
freshly constructed `(namespace, name)` pairs across namespaces. -/
def phase1Step (env : PluginEnv) (acc : ResourceIndex × List (String × String))
    (p : String × NamespaceSnapshot) : ResourceIndex × List (String × String) :=
  let currIdx := (alookup acc.1 p.1).getD []
  let r := buildNamespace env p.1 currIdx p.2
  (aset acc.1 p.1 r.1, acc.2 ++ r.2.map (fun n => (p.1, n)))

def phase1 (env : PluginEnv) (rI : ResourceIndex) (S : Snapshot) :
    ResourceIndex × List (String × String) :=
  S.foldl (phase1Step env) (rI, [])

/-- A record of one collision log line in the scope-index rebuild
(`"duplicate index"` / `"ignore consumer"`). -/
structure CollisionRecord where
  ns : String
  plugin : String
  key : String
  existing : String
  dropped : String
deriving DecidableEq, Repr

/-- The inner loop of the scope-index rebuild over one consumer's
`ConsumerConfigs`: insert `(plugin, cfg.Index()) → value` unless the slot
is already occupied, in which case log a collision and skip (`continue`). -/
def configStep (ns : String) (value : Consumer)
    (acc : List (String × List (String × Consumer)) × List CollisionRecord)
    (pc : String × PluginConsumerConfig) :
    List (String × List (String × Consumer)) × List CollisionRecord :=
  let pluginScopeIdx := (alookup acc.1 pc.1).getD []
  let idx := pc.2.index
  match alookup pluginScopeIdx idx with
  | some existing =>
    (acc.1, acc.2 ++ [⟨ns, pc.1, idx, existing.consumerName, value.consumerName⟩])
  | none => (aset acc.1 pc.1 (aset pluginScopeIdx idx value), acc.2)

def insertConfigs (ns : String) (value : Consumer)
    (acc : List (String × List (String × Consumer)) × List CollisionRecord)
    (configs : List (String × PluginConsumerConfig)) :
    List (String × List (String × Consumer)) × List CollisionRecord :=
  configs.foldl (configStep ns value) acc

/-- The per-namespace scope-index rebuild: iterate the namespace's
consumers (values of the resource index entry, in iteration order) and
insert each of their configs. -/
def consumerStep (ns : String)
    (acc : List (String × List (String × Consumer)) × List CollisionRecord)
    (p : String × Consumer) :
    List (String × List (String × Consumer)) × List CollisionRecord :=
  insertConfigs ns p.2 acc p.2.consumerConfigs

def buildNamespaceScope (ns : String) (consumers : List (String × Consumer)) :
    List (String × List (String × Consumer)) × List CollisionRecord :=
  consumers.foldl (consumerStep ns) ([], [])

def scopeStep (acc : ScopeIndex × List CollisionRecord)
    (p : String × List (String × Consumer)) : ScopeIndex × List CollisionRecord :=
  let r := buildNamespaceScope p.1 p.2
  (aset acc.1 p.1 r.1, acc.2 ++ r.2)

/-- Phase 2 of `updateConsumers`: rebuild `scopeIndex` from scratch from
the whole `resourceIndex`, collecting collision records. -/
def buildScope (rI : ResourceIndex) : ScopeIndex × List CollisionRecord :=
  rI.foldl scopeStep ([], [])

/-- The outcome of one `updateConsumers` call: the new package state plus
the instrumented observations (freshly constructed consumers; collision
log records).  The Go function itself returns nothing. -/
structure UpdateResult where
  state : RegistryState
  freshConsumers : List (String × String)
  collisions : List CollisionRecord

/-- `updateConsumers(value)`: phase 1 refreshes `resourceIndex` namespace
by namespace; phase 2 rebuilds `scopeIndex` in full.  Total — every
per-entry failure is logged and skipped, never returned. -/
def updateConsumers (env : PluginEnv) (st : RegistryState) (S : Snapshot) : UpdateResult :=
  let r1 := phase1 env st.resourceIndex S
  let r2 := buildScope r1.1
  ⟨⟨r1.1, r2.1⟩, r1.2, r2.2⟩

/-- `LookupConsumer(ns, pluginName, key)`: pure read of `scopeIndex`;
returns the extra bool exactly as the source does. -/
def LookupConsumer (st : RegistryState) (ns pluginName key : String) :
    Option Consumer × Bool :=
  match alookup st.scopeIndex ns with
  | some nsIdx =>
    match alookup nsIdx pluginName with
    | some pluginIdx => (alookup pluginIdx key, (alookup pluginIdx key).isSome)
    | none => (none, false)
  | none => (none, false)

/-- `Consumer.Name()`. -/
def Consumer.name (c : Consumer) : String := c.consumerName

/-- `Consumer.PluginConfig(name)`; a Go map read of a missing key returns
the zero value, embedded as `Option`. -/
def Consumer.pluginConfig (c : Consumer) (name : String) : Option PluginConsumerConfig :=
  alookup c.consumerConfigs name

/-! ### Observation helpers used by the specifications -/

/-- The contribution of one snapshot entry to the rebuilt namespace map. -/
def entryResult (env : PluginEnv) (ns : String) (currIdx : List (String × Consumer))
    (p : String × SnapshotEntry) : Option (String × Consumer) :=
  (processEntry env ns currIdx p.1 p.2).map (fun c => (p.1, c))

/-- The contribution of one snapshot entry to the list of freshly
constructed consumer names. -/
def entryFresh (env : PluginEnv) (ns : String) (currIdx : List (String × Consumer))
    (p : String × SnapshotEntry) : Option String :=
  match processEntry env ns currIdx p.1 p.2, entryIsFresh currIdx p.1 p.2 with
  | some _, true => some p.1
  | _, _ => none

/-- The fresh `(namespace, name)` pairs contributed by one snapshot namespace. -/
def freshOf (env : PluginEnv) (rI : ResourceIndex) (p : String × NamespaceSnapshot) :
    List (String × String) :=
  ((buildNamespace env p.1 ((alookup rI p.1).getD []) p.2).2).map (fun n => (p.1, n))

/-- All fresh `(namespace, name)` pairs of a snapshot, read against a fixed
resource index. -/
def collectFresh (env : PluginEnv) (rI : ResourceIndex) : Snapshot → List (String × String)
  | [] => []
  | p :: rest => freshOf env rI p ++ collectFresh env rI rest

/-- All collision records of a scope rebuild, namespace by namespace. -/
def collectCollisions : ResourceIndex → List CollisionRecord
  | [] => []
  | p :: rest => (buildNamespaceScope p.1 p.2).2 ++ collectCollisions rest

/-- Whether a consumer's parsed auth configs map plugin `p` to a config
whose `Index()` is `k` — i.e. the consumer claims the scope slot `(p, k)`. -/
def consumerMatches (c : Consumer) (p k : String) : Bool :=
  match alookup c.consumerConfigs p with
  | some cfg => decide (cfg.index = k)
  | none => false

/-- The first consumer in iteration order claiming scope slot `(p, k)`. -/
def firstMatch (cs : List Consumer) (p k : String) : Option Consumer :=
  cs.find? (fun c => consumerMatches c p k)

/-- Read of a per-namespace scope map at `(plugin, key)`. -/
def scopeLookup (nsScope : List (String × List (String × Consumer)))
    (p k : String) : Option Consumer :=
  match alookup nsScope p with
  | some pluginIdx => alookup pluginIdx k
  | none => none

/-- Every consumer stored in the resource index is stored under its own
name (true of every index the shown controller produces, since the
serialized body's `name` is the snapshot key). -/
def NameConsistent (rI : ResourceIndex) : Prop :=
  ∀ q ∈ rI, ∀ r ∈ q.2, (r : String × Consumer).2.consumerName = r.1

/-- Every snapshot entry's serialized body carries the entry's own key as
its `name` (how the control plane writes entries, per §6 of the spec). -/
def SnapNames (S : Snapshot) : Prop :=
  ∀ q ∈ S, ∀ r ∈ (q : String × NamespaceSnapshot).2,
    ∀ c : Consumer, Consumer.unmarshal {} (r : String × SnapshotEntry).2.d = .ok c →
      c.consumerName = r.1

/-- First-some choice on options (`b` only consulted when `a` is `none`):
the insert-if-absent discipline of the scope rebuild. -/
def ofirst {α : Type} : Option α → Option α → Option α
  | some a, _ => some a
  | none, b => b

/-- The scope entry one config list contributes for consumer `v` at slot
`(p, k)`: present exactly when the list maps plugin `p` to a config whose
`Index()` is `k`. -/
def configClaim (configs : List (String × PluginConsumerConfig)) (v : Consumer)
    (p k : String) : Option Consumer :=
  match alookup configs p with
  | some cfg => if cfg.index = k then some v else none
  | none => none

/-- The absence condition of `LookupConsumer`: the namespace, the plugin,
or the key is missing from the scope index. -/
def scopeAbsent (st : RegistryState) (ns pluginName key : String) : Prop :=
  alookup st.scopeIndex ns = none ∨
  (∃ nsIdx, alookup st.scopeIndex ns = some nsIdx ∧ alookup nsIdx pluginName = none) ∨
  (∃ nsIdx pluginIdx, alookup st.scopeIndex ns = some nsIdx ∧
    alookup nsIdx pluginName = some pluginIdx ∧ alookup pluginIdx key = none)

/-! ### Concrete plugin registries used for instantiations -/

/-- A registry with no plugins at all. -/
def envNone : PluginEnv := ⟨fun _ => none, fun _ => none⟩

/-- A registry where every name resolves to a plugin without consumer
capability. -/
def envOther : PluginEnv := ⟨fun _ => some .other, fun _ => none⟩

/-- A simple auth-capable plugin: the raw payload string is accepted as-is
and doubles as the lookup key (like `keyAuth` with a literal key). -/
def keyPlugin : ConsumerPlugin :=
  ⟨fun data => .ok ⟨data, data⟩, fun _ => none⟩

/-- A registry with a single auth-capable plugin named `keyAuth`. -/
def envKey : PluginEnv :=
  ⟨fun name => if name = "keyAuth" then some (.consumer keyPlugin) else none,
   fun _ => none⟩

/-- Serialized body of the consumer `alice` carrying one `keyAuth` payload. -/
def dAlice : JsonDoc :=
  .val (.obj [("name", .str "alice"), ("auth", .obj [("keyAuth", .str "abc")])])

/-- The consumer the registry builds from `dAlice` in namespace `ns1` at
version `1` under `envKey`. -/
def cAlice : Consumer :=
  ⟨"alice", [("keyAuth", "abc")], [], "ns1", "1", [("keyAuth", ⟨"abc", "abc"⟩)], []⟩

/-- Serialized body of the consumer `bob` claiming the same `keyAuth` key. -/
def dBob : JsonDoc :=
  .val (.obj [("name", .str "bob"), ("auth", .obj [("keyAuth", .str "abc")])])

/-- The consumer the registry builds from `dBob` in namespace `ns1`. -/
def cBob : Consumer :=
  ⟨"bob", [("keyAuth", "abc")], [], "ns1", "1", [("keyAuth", ⟨"abc", "abc"⟩)], []⟩

/-- A one-namespace snapshot with the single consumer `alice`. -/
def snapAlice : Snapshot := [("ns1", [("alice", ⟨"1", dAlice⟩)])]

/-- A one-namespace snapshot with `alice` and `bob` claiming the same
`(keyAuth, abc)` scope slot. -/
def snapCollide : Snapshot :=
  [("ns1", [("alice", ⟨"1", dAlice⟩), ("bob", ⟨"1", dBob⟩)])]

/-! ### Association-list lemmas -/

theorem alookup_aset {α : Type} (m : List (String × α)) (k k' : String) (v : α) :
    alookup (aset m k v) k' = if k = k' then some v else alookup m k' := by
  induction m with
  | nil => simp [aset, alookup]
  | cons p rest ih =>
    obtain ⟨k₀, v₀⟩ := p
    by_cases h : k₀ = k
    · subst h
      by_cases h' : k₀ = k'
      · subst h'
        simp [aset, alookup]
      · simp [aset, alookup, h']
    · by_cases h' : k₀ = k'
      · subst h'
        simp [aset, alookup, h, Ne.symm h]
      · simp [aset, alookup, h, h', ih]

theorem alookup_aset_self {α : Type} (m : List (String × α)) (k : String) (v : α) :
    alookup (aset m k v) k = some v := by
  simp [alookup_aset]

theorem alookup_aset_ne {α : Type} (m : List (String × α)) {k k' : String} (v : α)
    (h : k ≠ k') : alookup (aset m k v) k' = alookup m k' := by
  simp [alookup_aset, h]

theorem aset_eq_append {α : Type} {m : List (String × α)} {k : String} (v : α)
    (h : k ∉ m.map Prod.fst) : aset m k v = m ++ [(k, v)] := by
  induction m with
  | nil => simp [aset]
  | cons p rest ih =>
    simp only [List.map_cons, List.mem_cons] at h
    push_neg at h
    simp [aset, Ne.symm h.1, ih h.2]

theorem aset_self {α : Type} {m : List (String × α)} {k : String} {v : α}
    (h : alookup m k = some v) : aset m k v = m := by
  induction m with
  | nil => simp [alookup] at h
  | cons p rest ih =>
    obtain ⟨k₀, v₀⟩ := p
    simp only [alookup] at h
    by_cases hk : k₀ = k
    · rw [if_pos hk] at h
      injection h with h
      subst h
      simp [aset, hk]
    · rw [if_neg hk] at h
      simp [aset, hk, ih h]

theorem mem_aset {α : Type} {m : List (String × α)} {k : String} {v : α}
    {p : String × α} (h : p ∈ aset m k v) : p ∈ m ∨ p = (k, v) := by
  induction m with
  | nil => simp [aset] at h; simp [h]
  | cons q rest ih =>
    obtain ⟨k₀, v₀⟩ := q
    simp only [aset] at h
    by_cases hk : k₀ = k
    · rw [if_pos hk] at h
      rcases List.mem_cons.mp h with h | h
      · right; rw [h, hk]
      · left; exact List.mem_cons_of_mem _ h
    · rw [if_neg hk] at h
      rcases List.mem_cons.mp h with h | h
      · left; exact h ▸ List.mem_cons_self _ _
      · rcases ih h with h | h
        · left; exact List.mem_cons_of_mem _ h
        · right; exact h

theorem map_fst_aset_of_mem {α : Type} {m : List (String × α)} {k : String} (v : α)
    (h : k ∈ m.map Prod.fst) : (aset m k v).map Prod.fst = m.map Prod.fst := by
  induction m with
  | nil => simp at h
  | cons p rest ih =>
    obtain ⟨k₀, v₀⟩ := p
    by_cases hk : k₀ = k
    · simp [aset, hk]
    · simp only [List.map_cons, List.mem_cons] at h
      rcases h with h | h
      · exact absurd h.symm hk
      · simp [aset, hk, ih h]

theorem nodupKeys_aset {α : Type} {m : List (String × α)} {k : String} (v : α)
    (h : NodupKeys m) : NodupKeys (aset m k v) := by
  by_cases hk : k ∈ m.map Prod.fst
  · unfold NodupKeys
    rw [map_fst_aset_of_mem v hk]
    exact h
  · unfold NodupKeys
    rw [aset_eq_append v hk, List.map_append]
    simp only [List.map_cons, List.map_nil]
    rw [List.nodup_append]
    refine ⟨h, List.nodup_singleton k, fun a ha hb => ?_⟩
    simp only [List.mem_singleton] at hb
    exact hk (hb ▸ ha)

theorem alookup_eq_none_iff {α : Type} (m : List (String × α)) (k : String) :
    alookup m k = none ↔ k ∉ m.map Prod.fst := by
  induction m with
  | nil => simp [alookup]
  | cons p rest ih =>
    obtain ⟨k₀, v₀⟩ := p
    simp only [alookup, List.map_cons, List.mem_cons]
    by_cases hk : k₀ = k
    · subst hk
      simp
    · simp [hk, ih, Ne.symm hk]

theorem alookup_mem {α : Type} {m : List (String × α)} {k : String} {v : α}
    (h : alookup m k = some v) : (k, v) ∈ m := by
  induction m with
  | nil => simp [alookup] at h
  | cons p rest ih =>
    obtain ⟨k₀, v₀⟩ := p
    simp only [alookup] at h
    by_cases hk : k₀ = k
    · rw [if_pos hk] at h
      injection h with h
      subst hk h
      exact List.mem_cons_self _ _
    · rw [if_neg hk] at h
      exact List.mem_cons_of_mem _ (ih h)

theorem mem_alookup {α : Type} {m : List (String × α)} {k : String} {v : α}
    (hn : NodupKeys m) (h : (k, v) ∈ m) : alookup m k = some v := by
  induction m with
  | nil => simp at h
  | cons p rest ih =>
    obtain ⟨k₀, v₀⟩ := p
    unfold NodupKeys at hn
    simp only [List.map_cons, List.nodup_cons] at hn
    rcases List.mem_cons.mp h with h | h
    · injection h with h1 h2
      subst h1
      subst h2
      simp [alookup]
    · have hk : k₀ ≠ k := by
        intro he
        exact hn.1 (he ▸ (List.mem_map.mpr ⟨(k, v), h, rfl⟩))
      simp [alookup, hk, ih hn.2 h]

theorem alookup_append_left {α : Type} {m₁ m₂ : List (String × α)} {k : String} {v : α}
    (h : alookup m₁ k = some v) : alookup (m₁ ++ m₂) k = some v := by
  induction m₁ with
  | nil => simp [alookup] at h
  | cons p rest ih =>
    obtain ⟨k₀, v₀⟩ := p
    simp only [alookup] at h ⊢
    by_cases hk : k₀ = k
    · rwa [if_pos hk] at h ⊢
    · rw [if_neg hk] at h ⊢
      exact ih h

theorem alookup_append_right {α : Type} {m₁ : List (String × α)} (m₂ : List (String × α))
    {k : String} (h : k ∉ m₁.map Prod.fst) : alookup (m₁ ++ m₂) k = alookup m₂ k := by
  induction m₁ with
  | nil => simp
  | cons p rest ih =>
    obtain ⟨k₀, v₀⟩ := p
    simp only [List.map_cons, List.mem_cons] at h
    push_neg at h
    simp [alookup, Ne.symm h.1, ih h.2]

/-! ### Sorting and permutation lemmas (for the map-key sorting of `json.Marshal`) -/

theorem insertByKey_perm {α : Type} (p : String × α) (l : List (String × α)) :
    List.Perm (insertByKey p l) (p :: l) := by
  induction l with
  | nil => exact List.Perm.refl _
  | cons q rest ih =>
    simp only [insertByKey]
    by_cases h : p.1 ≤ q.1
    · rw [if_pos h]
    · rw [if_neg h]
      exact (ih.cons q).trans (List.Perm.swap p q rest)

theorem sortByKey_perm {α : Type} (l : List (String × α)) :
    List.Perm (sortByKey l) l := by
  induction l with
  | nil => exact List.Perm.refl _
  | cons p rest ih => exact (insertByKey_perm p (sortByKey rest)).trans (ih.cons p)

theorem nodupKeys_of_perm {α : Type} {l l' : List (String × α)}
    (h : List.Perm l l') (hn : NodupKeys l) : NodupKeys l' :=
  ((h.map Prod.fst).nodup_iff).mp hn

theorem alookup_eq_of_perm {α : Type} {l l' : List (String × α)}
    (h : List.Perm l l') (hn : NodupKeys l') (k : String) :
    alookup l k = alookup l' k := by
  cases hv : alookup l k with
  | some v =>
    exact (mem_alookup hn (h.mem_iff.mp (alookup_mem hv))).symm
  | none =>
    have hv' : k ∉ l.map Prod.fst := (alookup_eq_none_iff l k).mp hv
    have hl' : k ∉ l'.map Prod.fst := fun hm => hv' ((h.map Prod.fst).mem_iff.mpr hm)
    exact ((alookup_eq_none_iff l' k).mpr hl').symm

theorem length_filterMap_all_isSome {α β : Type} {l : List α} {f : α → Option β}
    (h : ∀ x ∈ l, (f x).isSome) : (l.filterMap f).length = l.length := by
  induction l with
  | nil => simp
  | cons x rest ih =>
    obtain ⟨y, hy⟩ := Option.isSome_iff_exists.mp (h x (List.mem_cons_self x rest))
    rw [List.filterMap_cons, hy]
    simp [ih (fun a ha => h a (List.mem_cons_of_mem _ ha))]

/-! ### Phase 1: characterization of the per-namespace rebuild -/

theorem freshConsumer_version {env : PluginEnv} {ns : String} {e : SnapshotEntry}
    {c : Consumer} (h : freshConsumer env ns e = some c) : c.resourceVersion = e.v := by
  unfold freshConsumer at h
  cases h1 : Consumer.unmarshal {} e.d with
  | error msg =>
    simp only [h1] at h
    exact Option.noConfusion h
  | ok c0 =>
    simp only [h1] at h
    cases h2 : Consumer.initConfigs env { c0 with namespace_ := ns } with
    | error msg =>
      simp only [h2] at h
      exact Option.noConfusion h
    | ok c1 =>
      simp only [h2] at h
      injection h with h
      rw [← h]

theorem processEntry_version {env : PluginEnv} {ns : String}
    {currIdx : List (String × Consumer)} {n : String} {e : SnapshotEntry} {c : Consumer}
    (h : processEntry env ns currIdx n e = some c) : c.resourceVersion = e.v := by
  unfold processEntry at h
  cases hl : alookup currIdx n with
  | some curr =>
    simp only [hl] at h
    by_cases hv : curr.resourceVersion = e.v
    · rw [if_pos hv] at h
      injection h with h
      subst h
      exact hv
    · rw [if_neg hv] at h
      exact freshConsumer_version h
  | none =>
    simp only [hl] at h
    exact freshConsumer_version h

theorem foldl_stepEntry_eq (env : PluginEnv) (ns : String)
    (currIdx : List (String × Consumer)) (entries : NamespaceSnapshot) :
    ∀ (acc : List (String × Consumer) × List String),
    NodupKeys entries →
    (∀ k, k ∈ entries.map Prod.fst → k ∉ acc.1.map Prod.fst) →
    entries.foldl (stepEntry env ns currIdx) acc =
      (acc.1 ++ entries.filterMap (entryResult env ns currIdx),
       acc.2 ++ entries.filterMap (entryFresh env ns currIdx)) := by
  induction entries with
  | nil => intro acc _ _; simp
  | cons p rest ih =>
    intro acc hnk hdisj
    have hp1 : p.1 ∉ acc.1.map Prod.fst := hdisj p.1 (by simp)
    have hnk' := hnk
    unfold NodupKeys at hnk'
    simp only [List.map_cons, List.nodup_cons] at hnk'
    have hnkr : NodupKeys rest := hnk'.2
    have hp1rest : p.1 ∉ rest.map Prod.fst := hnk'.1
    simp only [List.foldl_cons]
    cases hpe : processEntry env ns currIdx p.1 p.2 with
    | none =>
      rw [show stepEntry env ns currIdx acc p = acc from by simp [stepEntry, hpe]]
      rw [ih acc hnkr (fun k hk => hdisj k (by simp [hk]))]
      simp [entryResult, entryFresh, hpe]
    | some c =>
      have hstep : stepEntry env ns currIdx acc p =
          (acc.1 ++ [(p.1, c)],
           if entryIsFresh currIdx p.1 p.2 then acc.2 ++ [p.1] else acc.2) := by
        simp [stepEntry, hpe, aset_eq_append c hp1]
      rw [hstep]
      have hdisj' : ∀ k, k ∈ rest.map Prod.fst →
          k ∉ (acc.1 ++ [(p.1, c)]).map Prod.fst := by
        intro k hk
        rw [List.map_append]
        simp only [List.map_cons, List.map_nil, List.mem_append, List.mem_singleton]
        push_neg
        exact ⟨hdisj k (by simp [hk]), fun he => hp1rest (he ▸ hk)⟩
      rw [ih _ hnkr hdisj']
      by_cases hf : entryIsFresh currIdx p.1 p.2
      · simp [entryResult, entryFresh, hpe, hf]
      · simp [entryResult, entryFresh, hpe, hf]

theorem buildNamespace_eq (env : PluginEnv) (ns : String)
    (currIdx : List (String × Consumer)) (entries : NamespaceSnapshot)
    (hnk : NodupKeys entries) :
    buildNamespace env ns currIdx entries =
      (entries.filterMap (entryResult env ns currIdx),
       entries.filterMap (entryFresh env ns currIdx)) := by
  have := foldl_stepEntry_eq env ns currIdx entries ([], []) hnk (by simp)
  simpa [buildNamespace] using this

theorem keys_filterMap_entryResult_subset (env : PluginEnv) (ns : String)
    (currIdx : List (String × Consumer)) (entries : NamespaceSnapshot) :
    ∀ k, k ∈ (entries.filterMap (entryResult env ns currIdx)).map Prod.fst →
      k ∈ entries.map Prod.fst := by
  induction entries with
  | nil => simp
  | cons p rest ih =>
    intro k hk
    rw [List.filterMap_cons] at hk
    cases hpe : processEntry env ns currIdx p.1 p.2 with
    | none =>
      rw [show entryResult env ns currIdx p = none from by simp [entryResult, hpe]] at hk
      exact List.mem_cons_of_mem _ (ih k hk)
    | some c =>
      rw [show entryResult env ns currIdx p = some (p.1, c) from by
        simp [entryResult, hpe]] at hk
      simp only [List.map_cons, List.mem_cons] at hk
      rcases hk with hk | hk
      · simp [hk]
      · exact List.mem_cons_of_mem _ (ih k hk)

theorem alookup_filterMap_entryResult (env : PluginEnv) (ns : String)
    (currIdx : List (String × Consumer)) {entries : NamespaceSnapshot}
    (hnk : NodupKeys entries) {n : String} {e : SnapshotEntry}
    (hmem : (n, e) ∈ entries) :
    alookup (entries.filterMap (entryResult env ns currIdx)) n =
      processEntry env ns currIdx n e := by
  induction entries with
  | nil => simp at hmem
  | cons p rest ih =>
    have hnk' := hnk
    unfold NodupKeys at hnk'
    simp only [List.map_cons, List.nodup_cons] at hnk'
    rw [List.filterMap_cons]
    cases List.mem_cons.mp hmem with
    | inl h =>
      have hp : p = (n, e) := h.symm
      subst hp
      cases hpe : processEntry env ns currIdx n e with
      | none =>
        rw [show entryResult env ns currIdx (n, e) = none from by
          simp [entryResult, hpe]]
        have hnotin : n ∉ (rest.filterMap (entryResult env ns currIdx)).map Prod.fst :=
          fun hmem' => hnk'.1 (keys_filterMap_entryResult_subset env ns currIdx rest n hmem')
        exact (alookup_eq_none_iff _ n).mpr hnotin
      | some c =>
        rw [show entryResult env ns currIdx (n, e) = some (n, c) from by
          simp [entryResult, hpe]]
        simp [alookup]
    | inr h =>
      have hne : p.1 ≠ n := by
        intro he
        exact hnk'.1 (he ▸ List.mem_map.mpr ⟨(n, e), h, rfl⟩)
      cases hpe : processEntry env ns currIdx p.1 p.2 with
      | none =>
        rw [show entryResult env ns currIdx p = none from by simp [entryResult, hpe]]
        exact ih hnk'.2 h
      | some c =>
        rw [show entryResult env ns currIdx p = some (p.1, c) from by
          simp [entryResult, hpe]]
        rw [show alookup ((p.1, c) :: rest.filterMap (entryResult env ns currIdx)) n =
          alookup (rest.filterMap (entryResult env ns currIdx)) n from by
          simp [alookup, hne]]
        exact ih hnk'.2 h

/-! ### Phase 1: characterization of the cross-namespace fold -/

theorem phase1Step_fst (env : PluginEnv) (acc : ResourceIndex × List (String × String))
    (p : String × NamespaceSnapshot) :
    (phase1Step env acc p).1 =
      aset acc.1 p.1 (buildNamespace env p.1 ((alookup acc.1 p.1).getD []) p.2).1 := rfl

theorem phase1Step_snd (env : PluginEnv) (acc : ResourceIndex × List (String × String))
    (p : String × NamespaceSnapshot) :
    (phase1Step env acc p).2 = acc.2 ++ freshOf env acc.1 p := rfl

theorem alookup_foldl_phase1 (env : PluginEnv) (S : Snapshot) :
    ∀ (acc : ResourceIndex × List (String × String)) (ns : String),
      ns ∉ S.map Prod.fst →
      alookup (S.foldl (phase1Step env) acc).1 ns = alookup acc.1 ns := by
  induction S with
  | nil => intro acc ns _; rfl
  | cons p rest ih =>
    intro acc ns h
    simp only [List.map_cons, List.mem_cons] at h
    push_neg at h
    rw [List.foldl_cons, ih _ ns h.2, phase1Step_fst]
    exact alookup_aset_ne _ _ (Ne.symm h.1)

theorem alookup_foldl_phase1_mem (env : PluginEnv) (S : Snapshot) :
    ∀ (acc : ResourceIndex × List (String × String)) (ns : String)
      (entries : NamespaceSnapshot), NodupKeys S → (ns, entries) ∈ S →
      alookup (S.foldl (phase1Step env) acc).1 ns =
        some (buildNamespace env ns ((alookup acc.1 ns).getD []) entries).1 := by
  induction S with
  | nil => intro acc ns entries _ h; simp at h
  | cons p rest ih =>
    intro acc ns entries hnk hmem
    have hnk' := hnk
    unfold NodupKeys at hnk'
    simp only [List.map_cons, List.nodup_cons] at hnk'
    rw [List.foldl_cons]
    cases List.mem_cons.mp hmem with
    | inl h =>
      have hp : p = (ns, entries) := h.symm
      subst hp
      have hns : ns ∉ rest.map Prod.fst := hnk'.1
      rw [alookup_foldl_phase1 env rest _ ns hns, phase1Step_fst]
      exact alookup_aset_self _ _ _
    | inr h =>
      have hne : p.1 ≠ ns := by
        intro he
        apply hnk'.1
        rw [he]
        exact List.mem_map.mpr ⟨(ns, entries), h, rfl⟩
      rw [ih _ ns entries hnk'.2 h, phase1Step_fst, alookup_aset_ne _ _ hne]

theorem collectFresh_congr (env : PluginEnv) {rI rI' : ResourceIndex} (S : Snapshot)
    (h : ∀ p ∈ S, alookup rI' p.1 = alookup rI p.1) :
    collectFresh env rI' S = collectFresh env rI S := by
  induction S with
  | nil => rfl
  | cons p rest ih =>
    simp only [collectFresh]
    rw [show freshOf env rI' p = freshOf env rI p from by
      simp [freshOf, h p (List.mem_cons_self p rest)]]
    rw [ih (fun q hq => h q (List.mem_cons_of_mem _ hq))]

theorem foldl_phase1_snd (env : PluginEnv) (S : Snapshot) :
    ∀ (acc : ResourceIndex × List (String × String)), NodupKeys S →
      (S.foldl (phase1Step env) acc).2 = acc.2 ++ collectFresh env acc.1 S := by
  induction S with
  | nil => intro acc _; simp [collectFresh]
  | cons p rest ih =>
    intro acc hnk
    have hnk' := hnk
    unfold NodupKeys at hnk'
    simp only [List.map_cons, List.nodup_cons] at hnk'
    have hcong : ∀ q ∈ rest, alookup (phase1Step env acc p).1 q.1 = alookup acc.1 q.1 := by
      intro q hq
      rw [phase1Step_fst]
      refine alookup_aset_ne _ _ (fun he => hnk'.1 ?_)
      rw [he]
      exact List.mem_map.mpr ⟨q, hq, rfl⟩
    rw [List.foldl_cons, ih _ hnk'.2, collectFresh_congr env rest hcong, phase1Step_snd]
    simp [collectFresh, List.append_assoc]

theorem nodupKeys_foldl_phase1 (env : PluginEnv) (S : Snapshot) :
    ∀ (acc : ResourceIndex × List (String × String)), NodupKeys acc.1 →
      NodupKeys (S.foldl (phase1Step env) acc).1 := by
  induction S with
  | nil => intro acc h; exact h
  | cons p rest ih =>
    intro acc h
    rw [List.foldl_cons]
    refine ih _ ?_
    rw [phase1Step_fst]
    exact nodupKeys_aset _ h

/-! ### Phase 2: characterization of the scope rebuild -/

theorem scopeStep_fst (acc : ScopeIndex × List CollisionRecord)
    (p : String × List (String × Consumer)) :
    (scopeStep acc p).1 = aset acc.1 p.1 (buildNamespaceScope p.1 p.2).1 := rfl

theorem scopeStep_snd (acc : ScopeIndex × List CollisionRecord)
    (p : String × List (String × Consumer)) :
    (scopeStep acc p).2 = acc.2 ++ (buildNamespaceScope p.1 p.2).2 := rfl

theorem foldl_scopeStep_snd (rI : ResourceIndex) :
    ∀ (acc : ScopeIndex × List CollisionRecord),
      (rI.foldl scopeStep acc).2 = acc.2 ++ collectCollisions rI := by
  induction rI with
  | nil => intro acc; simp [collectCollisions]
  | cons p rest ih =>
    intro acc
    rw [List.foldl_cons, ih, scopeStep_snd]
    simp [collectCollisions, List.append_assoc]

theorem alookup_foldl_scope (rI : ResourceIndex) :
    ∀ (acc : ScopeIndex × List CollisionRecord) (ns : String),
      ns ∉ rI.map Prod.fst →
      alookup (rI.foldl scopeStep acc).1 ns = alookup acc.1 ns := by
  induction rI with
  | nil => intro acc ns _; rfl
  | cons p rest ih =>
    intro acc ns h
    simp only [List.map_cons, List.mem_cons] at h
    push_neg at h
    rw [List.foldl_cons, ih _ ns h.2, scopeStep_fst]
    exact alookup_aset_ne _ _ (Ne.symm h.1)

theorem alookup_foldl_scope_mem (rI : ResourceIndex) :
    ∀ (acc : ScopeIndex × List CollisionRecord) (ns : String)
      (consumers : List (String × Consumer)), NodupKeys rI → (ns, consumers) ∈ rI →
      alookup (rI.foldl scopeStep acc).1 ns = some (buildNamespaceScope ns consumers).1 := by
  induction rI with
  | nil => intro acc ns consumers _ h; simp at h
  | cons p rest ih =>
    intro acc ns consumers hnk hmem
    have hnk' := hnk
    unfold NodupKeys at hnk'
    simp only [List.map_cons, List.nodup_cons] at hnk'
    rw [List.foldl_cons]
    cases List.mem_cons.mp hmem with
    | inl h =>
      have hp : p = (ns, consumers) := h.symm
      subst hp
      rw [alookup_foldl_scope rest _ ns hnk'.1, scopeStep_fst]
      exact alookup_aset_self _ _ _
    | inr h =>
      rw [ih _ ns consumers hnk'.2 h]

theorem foldl_scope_fst_from (rI : ResourceIndex) :
    ∀ (acc : ScopeIndex × List CollisionRecord) (ns : String)
      (x : List (String × List (String × Consumer))),
      alookup (rI.foldl scopeStep acc).1 ns = some x →
      alookup acc.1 ns = some x ∨
        ∃ cs, (ns, cs) ∈ rI ∧ x = (buildNamespaceScope ns cs).1 := by
  induction rI with
  | nil => intro acc ns x h; exact Or.inl h
  | cons p rest ih =>
    obtain ⟨pns, pcs⟩ := p
    intro acc ns x h
    rw [List.foldl_cons] at h
    rcases ih _ ns x h with h' | ⟨cs, hmem, hx⟩
    · rw [scopeStep_fst, alookup_aset] at h'
      by_cases he : pns = ns
      · subst he
        rw [if_pos rfl] at h'
        injection h' with h'
        exact Or.inr ⟨pcs, List.mem_cons_self _ rest, h'.symm⟩
      · rw [if_neg he] at h'
        exact Or.inl h'
    · exact Or.inr ⟨cs, List.mem_cons_of_mem _ hmem, hx⟩

theorem mem_collectCollisions {rI : ResourceIndex} {ns : String}
    {consumers : List (String × Consumer)} {r : CollisionRecord}
    (hmem : (ns, consumers) ∈ rI) (hr : r ∈ (buildNamespaceScope ns consumers).2) :
    r ∈ collectCollisions rI := by
  induction rI with
  | nil => simp at hmem
  | cons p rest ih =>
    simp only [collectCollisions, List.mem_append]
    cases List.mem_cons.mp hmem with
    | inl h =>
      left
      subst h
      exact hr
    | inr h => exact Or.inr (ih h)

/-! ### Scope rebuild: first-writer-wins lookup characterization -/

theorem ofirst_none_right {α : Type} (a : Option α) : ofirst a none = a := by
  cases a <;> rfl

theorem ofirst_assoc {α : Type} (a b c : Option α) :
    ofirst (ofirst a b) c = ofirst a (ofirst b c) := by
  cases a <;> cases b <;> rfl

theorem scopeLookup_nil (p k : String) : scopeLookup [] p k = none := rfl

theorem configClaim_of_none {configs : List (String × PluginConsumerConfig)}
    {v : Consumer} {p : String} (k : String) (h : alookup configs p = none) :
    configClaim configs v p k = none := by
  simp [configClaim, h]

theorem scopeLookup_configStep (ns : String) (v : Consumer)
    (acc : List (String × List (String × Consumer)) × List CollisionRecord)
    (pc : String × PluginConsumerConfig) (p k : String) :
    scopeLookup (configStep ns v acc pc).1 p k =
      ofirst (scopeLookup acc.1 p k)
        (if pc.1 = p ∧ pc.2.index = k then some v else none) := by
  simp only [configStep]
  cases hocc : alookup ((alookup acc.1 pc.1).getD []) pc.2.index with
  | some existing =>
    simp only [hocc]
    by_cases hcond : pc.1 = p ∧ pc.2.index = k
    · obtain ⟨h1, h2⟩ := hcond
      subst h1
      subst h2
      have hc : pc.1 = pc.1 ∧ pc.2.index = pc.2.index := ⟨rfl, rfl⟩
      rw [if_pos hc]
      have hbase : scopeLookup acc.1 pc.1 pc.2.index = some existing := by
        unfold scopeLookup
        cases hpi : alookup acc.1 pc.1 with
        | none => simp [hpi, alookup] at hocc
        | some pi =>
          simp only [hpi] at hocc ⊢
          simpa using hocc
      rw [hbase]
      rfl
    · rw [if_neg hcond]
      exact (ofirst_none_right _).symm
  | none =>
    simp only [hocc]
    by_cases hp : pc.1 = p
    · subst hp
      unfold scopeLookup
      simp only [alookup_aset_self]
      rw [alookup_aset]
      by_cases hk : pc.2.index = k
      · rw [if_pos hk, if_pos (show True ∧ pc.2.index = k from ⟨trivial, hk⟩)]
        cases hpi : alookup acc.1 pc.1 with
        | none => rfl
        | some pi =>
          have hnone : alookup pi k = none := by
            rw [← hk]
            simpa [hpi] using hocc
          show some v = ofirst (alookup pi k) (some v)
          rw [hnone]
          rfl
      · rw [if_neg hk, if_neg (fun hc => hk hc.2)]
        cases hpi : alookup acc.1 pc.1 with
        | none =>
          simpa [hpi, alookup] using (ofirst_none_right (none : Option Consumer)).symm
        | some pi =>
          simp only [hpi, Option.getD_some]
          exact (ofirst_none_right _).symm
    · unfold scopeLookup
      rw [alookup_aset_ne _ _ hp, if_neg (fun hc => hp hc.1)]
      exact (ofirst_none_right _).symm

theorem scopeLookup_insertConfigs (ns : String) (v : Consumer) :
    ∀ (configs : List (String × PluginConsumerConfig))
      (acc : List (String × List (String × Consumer)) × List CollisionRecord)
      (p k : String), NodupKeys configs →
      scopeLookup (insertConfigs ns v acc configs).1 p k =
        ofirst (scopeLookup acc.1 p k) (configClaim configs v p k) := by
  intro configs
  induction configs with
  | nil =>
    intro acc p k _
    rw [show configClaim [] v p k = none from rfl, ofirst_none_right]
    rfl
  | cons pc rest ih =>
    intro acc p k hnk
    have hnk' := hnk
    unfold NodupKeys at hnk'
    simp only [List.map_cons, List.nodup_cons] at hnk'
    have hfold : insertConfigs ns v acc (pc :: rest) =
        insertConfigs ns v (configStep ns v acc pc) rest := rfl
    rw [hfold, ih _ p k hnk'.2, scopeLookup_configStep, ofirst_assoc]
    congr 1
    by_cases hp : pc.1 = p
    · subst hp
      have hrest : configClaim rest v pc.1 k = none :=
        configClaim_of_none k ((alookup_eq_none_iff rest pc.1).mpr hnk'.1)
      rw [hrest, ofirst_none_right]
      simp [configClaim, alookup]
    · rw [if_neg (fun hc => hp hc.1)]
      simp only [configClaim, alookup, if_neg hp]
      rfl

theorem consumerMatches_iff_configClaim (c : Consumer) (p k : String) :
    (if consumerMatches c p k then some c else none) =
      configClaim c.consumerConfigs c p k := by
  unfold consumerMatches configClaim
  cases alookup c.consumerConfigs p with
  | none => rfl
  | some cfg =>
    by_cases hk : cfg.index = k
    · simp [hk]
    · simp [hk]

theorem scopeLookup_consumerStep (ns : String)
    (acc : List (String × List (String × Consumer)) × List CollisionRecord)
    (q : String × Consumer) (p k : String) (hnk : NodupKeys q.2.consumerConfigs) :
    scopeLookup (consumerStep ns acc q).1 p k =
      ofirst (scopeLookup acc.1 p k)
        (if consumerMatches q.2 p k then some q.2 else none) := by
  unfold consumerStep
  rw [scopeLookup_insertConfigs ns q.2 q.2.consumerConfigs acc p k hnk,
    consumerMatches_iff_configClaim]

theorem firstMatch_cons (c : Consumer) (cs : List Consumer) (p k : String) :
    firstMatch (c :: cs) p k =
      if consumerMatches c p k then some c else firstMatch cs p k := by
  by_cases hm : consumerMatches c p k
  · rw [if_pos hm]
    exact List.find?_cons_of_pos _ hm
  · rw [if_neg hm]
    exact List.find?_cons_of_neg _ (by simpa using hm)

theorem scopeLookup_foldl_consumerStep (ns : String) (p k : String) :
    ∀ (consumers : List (String × Consumer))
      (acc : List (String × List (String × Consumer)) × List CollisionRecord),
      (∀ q ∈ consumers, NodupKeys (q : String × Consumer).2.consumerConfigs) →
      scopeLookup (consumers.foldl (consumerStep ns) acc).1 p k =
        ofirst (scopeLookup acc.1 p k) (firstMatch (consumers.map Prod.snd) p k) := by
  intro consumers
  induction consumers with
  | nil =>
    intro acc _
    rw [show firstMatch (([] : List (String × Consumer)).map Prod.snd) p k = none from rfl,
      ofirst_none_right]
    rfl
  | cons q rest ih =>
    intro acc hnk
    rw [List.foldl_cons, ih _ (fun r hr => hnk r (List.mem_cons_of_mem _ hr)),
      scopeLookup_consumerStep ns acc q p k (hnk q (List.mem_cons_self q rest)),
      ofirst_assoc, List.map_cons, firstMatch_cons]
    congr 1
    by_cases hm : consumerMatches q.2 p k
    · rw [if_pos hm, if_pos hm]
      rfl
    · rw [if_neg hm, if_neg hm]
      rfl

theorem scopeLookup_buildNamespaceScope (ns : String)
    (consumers : List (String × Consumer)) (p k : String)
    (hnk : ∀ q ∈ consumers, NodupKeys (q : String × Consumer).2.consumerConfigs) :
    scopeLookup (buildNamespaceScope ns consumers).1 p k =
      firstMatch (consumers.map Prod.snd) p k := by
  unfold buildNamespaceScope
  rw [scopeLookup_foldl_consumerStep ns p k consumers ([], []) hnk]
  rfl

/-! ### Scope rebuild: stability, collision records, and provenance -/

theorem scopeLookup_configStep_stable (ns : String) (v : Consumer)
    (acc : List (String × List (String × Consumer)) × List CollisionRecord)
    (pc : String × PluginConsumerConfig) {p k : String} {x : Consumer}
    (h : scopeLookup acc.1 p k = some x) :
    scopeLookup (configStep ns v acc pc).1 p k = some x := by
  rw [scopeLookup_configStep, h]
  rfl

theorem scopeLookup_insertConfigs_stable (ns : String) (v : Consumer) :
    ∀ (configs : List (String × PluginConsumerConfig))
      (acc : List (String × List (String × Consumer)) × List CollisionRecord)
      {p k : String} {x : Consumer},
      scopeLookup acc.1 p k = some x →
      scopeLookup (insertConfigs ns v acc configs).1 p k = some x := by
  intro configs
  induction configs with
  | nil => intro acc p k x h; exact h
  | cons pc rest ih =>
    intro acc p k x h
    exact ih (configStep ns v acc pc) (scopeLookup_configStep_stable ns v acc pc h)

theorem insertConfigs_snd_extends (ns : String) (v : Consumer) :
    ∀ (configs : List (String × PluginConsumerConfig))
      (acc : List (String × List (String × Consumer)) × List CollisionRecord),
      ∃ l, (insertConfigs ns v acc configs).2 = acc.2 ++ l := by
  intro configs
  induction configs with
  | nil => intro acc; exact ⟨[], by simp [insertConfigs]⟩
  | cons pc rest ih =>
    intro acc
    have hstep : ∃ l0, (configStep ns v acc pc).2 = acc.2 ++ l0 := by
      simp only [configStep]
      cases hocc : alookup ((alookup acc.1 pc.1).getD []) pc.2.index with
      | some existing =>
        refine ⟨[⟨ns, pc.1, pc.2.index, existing.consumerName, v.consumerName⟩], ?_⟩
        simp [hocc]
      | none =>
        refine ⟨[], ?_⟩
        simp [hocc]
    obtain ⟨l0, h0⟩ := hstep
    obtain ⟨l1, h1⟩ := ih (configStep ns v acc pc)
    refine ⟨l0 ++ l1, ?_⟩
    rw [show insertConfigs ns v acc (pc :: rest) =
      insertConfigs ns v (configStep ns v acc pc) rest from rfl, h1, h0, List.append_assoc]

theorem mem_insertConfigs_snd (ns : String) (v : Consumer)
    (configs : List (String × PluginConsumerConfig))
    (acc : List (String × List (String × Consumer)) × List CollisionRecord)
    (r : CollisionRecord) (h : r ∈ acc.2) : r ∈ (insertConfigs ns v acc configs).2 := by
  obtain ⟨l, hl⟩ := insertConfigs_snd_extends ns v configs acc
  rw [hl]
  exact List.mem_append_left _ h

theorem mem_foldl_consumerStep_snd (ns : String) :
    ∀ (cs : List (String × Consumer))
      (acc : List (String × List (String × Consumer)) × List CollisionRecord)
      (r : CollisionRecord), r ∈ acc.2 → r ∈ (cs.foldl (consumerStep ns) acc).2 := by
  intro cs
  induction cs with
  | nil => intro acc r h; exact h
  | cons q rest ih =>
    intro acc r h
    exact ih (consumerStep ns acc q) r (mem_insertConfigs_snd ns q.2 q.2.consumerConfigs acc r h)

theorem configStep_records (ns : String) (v : Consumer)
    (acc : List (String × List (String × Consumer)) × List CollisionRecord)
    (pc : String × PluginConsumerConfig) {x : Consumer}
    (hocc : scopeLookup acc.1 pc.1 pc.2.index = some x) :
    ∃ r ∈ (configStep ns v acc pc).2, r.ns = ns ∧ r.plugin = pc.1 ∧ r.key = pc.2.index := by
  unfold scopeLookup at hocc
  cases hpi : alookup acc.1 pc.1 with
  | none =>
    rw [hpi] at hocc
    exact absurd hocc (by simp)
  | some pi =>
    simp only [hpi] at hocc
    have hsub : alookup ((alookup acc.1 pc.1).getD []) pc.2.index = some x := by
      simp [hpi, hocc]
    refine ⟨⟨ns, pc.1, pc.2.index, x.consumerName, v.consumerName⟩, ?_, rfl, rfl, rfl⟩
    simp only [configStep, hsub]
    simp

theorem consumerMatches_exists {c : Consumer} {p k : String}
    (hm : consumerMatches c p k = true) :
    ∃ cfg, (p, cfg) ∈ c.consumerConfigs ∧ cfg.index = k := by
  unfold consumerMatches at hm
  cases hl : alookup c.consumerConfigs p with
  | none =>
    rw [hl] at hm
    exact absurd hm (by simp)
  | some cfg =>
    rw [hl] at hm
    exact ⟨cfg, alookup_mem hl, of_decide_eq_true hm⟩

theorem insertConfigs_records (ns : String) (v : Consumer) :
    ∀ (configs : List (String × PluginConsumerConfig))
      (acc : List (String × List (String × Consumer)) × List CollisionRecord)
      {p k : String} {x : Consumer} {cfg : PluginConsumerConfig},
      scopeLookup acc.1 p k = some x → (p, cfg) ∈ configs → cfg.index = k →
      ∃ r ∈ (insertConfigs ns v acc configs).2, r.ns = ns ∧ r.plugin = p ∧ r.key = k := by
  intro configs
  induction configs with
  | nil => intro acc p k x cfg _ hmem _; simp at hmem
  | cons pc rest ih =>
    intro acc p k x cfg hocc hmem hidx
    cases List.mem_cons.mp hmem with
    | inl h =>
      have hpc : pc = (p, cfg) := h.symm
      subst hpc
      obtain ⟨r, hr, h1, h2, h3⟩ := configStep_records ns v acc (p, cfg) (hidx.symm ▸ hocc)
      refine ⟨r, ?_, h1, h2, by rw [h3]; exact hidx⟩
      exact mem_insertConfigs_snd ns v rest _ r hr
    | inr h =>
      exact ih (configStep ns v acc pc) (scopeLookup_configStep_stable ns v acc pc hocc) h hidx

theorem consumerStep_records (ns : String)
    (acc : List (String × List (String × Consumer)) × List CollisionRecord)
    (q : String × Consumer) {p k : String} {x : Consumer}
    (hocc : scopeLookup acc.1 p k = some x) (hm : consumerMatches q.2 p k = true) :
    ∃ r ∈ (consumerStep ns acc q).2, r.ns = ns ∧ r.plugin = p ∧ r.key = k := by
  obtain ⟨cfg, hmem, hidx⟩ := consumerMatches_exists hm
  exact insertConfigs_records ns q.2 q.2.consumerConfigs acc hocc hmem hidx

theorem scopeLookup_configStep_values (ns : String) (v : Consumer)
    (acc : List (String × List (String × Consumer)) × List CollisionRecord)
    (pc : String × PluginConsumerConfig) {p k : String} {x : Consumer}
    (h : scopeLookup (configStep ns v acc pc).1 p k = some x) :
    scopeLookup acc.1 p k = some x ∨ x = v := by
  rw [scopeLookup_configStep] at h
  cases hb : scopeLookup acc.1 p k with
  | some y =>
    rw [hb] at h
    exact Or.inl h
  | none =>
    rw [hb] at h
    by_cases hc : pc.1 = p ∧ pc.2.index = k
    · rw [if_pos hc] at h
      simp only [ofirst] at h
      injection h with h
      exact Or.inr h.symm
    · rw [if_neg hc] at h
      simp only [ofirst] at h
      exact absurd h (by simp)

theorem scopeLookup_insertConfigs_values (ns : String) (v : Consumer) :
    ∀ (configs : List (String × PluginConsumerConfig))
      (acc : List (String × List (String × Consumer)) × List CollisionRecord)
      {p k : String} {x : Consumer},
      scopeLookup (insertConfigs ns v acc configs).1 p k = some x →
      scopeLookup acc.1 p k = some x ∨ x = v := by
  intro configs
  induction configs with
  | nil => intro acc p k x h; exact Or.inl h
  | cons pc rest ih =>
    intro acc p k x h
    rcases ih (configStep ns v acc pc) h with h' | h'
    · exact scopeLookup_configStep_values ns v acc pc h'
    · exact Or.inr h'

theorem scopeLookup_foldl_values (ns : String) :
    ∀ (cs : List (String × Consumer))
      (acc : List (String × List (String × Consumer)) × List CollisionRecord)
      {p k : String} {x : Consumer},
      scopeLookup (cs.foldl (consumerStep ns) acc).1 p k = some x →
      scopeLookup acc.1 p k = some x ∨ x ∈ cs.map Prod.snd := by
  intro cs
  induction cs with
  | nil => intro acc p k x h; exact Or.inl h
  | cons q rest ih =>
    intro acc p k x h
    rcases ih (consumerStep ns acc q) h with h' | h'
    · rcases scopeLookup_insertConfigs_values ns q.2 q.2.consumerConfigs acc h' with h2 | h2
      · exact Or.inl h2
      · exact Or.inr (by simp [h2])
    · exact Or.inr (List.mem_cons_of_mem _ h')

theorem scopeLookup_buildNamespaceScope_values (ns : String)
    (cs : List (String × Consumer)) {p k : String} {x : Consumer}
    (h : scopeLookup (buildNamespaceScope ns cs).1 p k = some x) :
    x ∈ cs.map Prod.snd := by
  rcases scopeLookup_foldl_values ns cs ([], []) h with h2 | h2
  · exact absurd h2 (by simp [scopeLookup, alookup])
  · exact h2

theorem firstMatch_isSome {cs : List Consumer} {p k : String} {c : Consumer}
    (hmem : c ∈ cs) (hm : consumerMatches c p k = true) :
    ∃ c2, firstMatch cs p k = some c2 := by
  induction cs with
  | nil => simp at hmem
  | cons c0 rest ih =>
    rw [firstMatch_cons]
    by_cases hm0 : consumerMatches c0 p k
    · exact ⟨c0, if_pos hm0⟩
    · rw [if_neg hm0]
      cases List.mem_cons.mp hmem with
      | inl h =>
        rw [h] at hm
        exact absurd hm hm0
      | inr h => exact ih h

theorem firstMatch_mem {cs : List Consumer} {p k : String} {c : Consumer}
    (h : firstMatch cs p k = some c) : c ∈ cs :=
  List.mem_of_find?_eq_some h

/-! ### Idempotence of the per-namespace rebuild -/

theorem filterMap_congr_mem {α β : Type} {l : List α} {f g : α → Option β}
    (h : ∀ a ∈ l, f a = g a) : l.filterMap f = l.filterMap g := by
  induction l with
  | nil => rfl
  | cons x rest ih =>
    rw [List.filterMap_cons, List.filterMap_cons, h x (List.mem_cons_self x rest),
      ih (fun a ha => h a (List.mem_cons_of_mem _ ha))]

theorem filterMap_nil_of_none {α β : Type} {l : List α} {f : α → Option β}
    (h : ∀ a ∈ l, f a = none) : l.filterMap f = [] := by
  induction l with
  | nil => rfl
  | cons x rest ih =>
    rw [List.filterMap_cons, h x (List.mem_cons_self x rest),
      ih (fun a ha => h a (List.mem_cons_of_mem _ ha))]

theorem alookup_buildNamespace (env : PluginEnv) (ns : String)
    (currIdx : List (String × Consumer)) {entries : NamespaceSnapshot}
    (hnk : NodupKeys entries) {n : String} {e : SnapshotEntry}
    (hmem : (n, e) ∈ entries) :
    alookup (buildNamespace env ns currIdx entries).1 n =
      processEntry env ns currIdx n e := by
  rw [buildNamespace_eq env ns currIdx entries hnk]
  exact alookup_filterMap_entryResult env ns currIdx hnk hmem

theorem processEntry_none_fresh {env : PluginEnv} {ns : String}
    {currIdx : List (String × Consumer)} {n : String} {e : SnapshotEntry}
    (h : processEntry env ns currIdx n e = none) : freshConsumer env ns e = none := by
  unfold processEntry at h
  cases hl : alookup currIdx n with
  | some curr =>
    simp only [hl] at h
    by_cases hv : curr.resourceVersion = e.v
    · rw [if_pos hv] at h
      exact absurd h (by simp)
    · rwa [if_neg hv] at h
  | none =>
    simp only [hl] at h
    exact h

theorem processEntry_none_of_fresh_fail {env : PluginEnv} {ns : String}
    {currIdx : List (String × Consumer)} {n : String} {e : SnapshotEntry}
    (hif : entryIsFresh currIdx n e = true) (hff : freshConsumer env ns e = none) :
    processEntry env ns currIdx n e = none := by
  unfold entryIsFresh at hif
  unfold processEntry
  cases hl : alookup currIdx n with
  | some curr =>
    simp only [hl] at hif
    simp only [hl]
    rw [if_neg (of_decide_eq_true hif)]
    exact hff
  | none =>
    simp only [hl]
    exact hff

theorem processEntry_idem (env : PluginEnv) (ns : String)
    (currIdx : List (String × Consumer)) {entries : NamespaceSnapshot}
    (hnk : NodupKeys entries) {n : String} {e : SnapshotEntry}
    (hmem : (n, e) ∈ entries) :
    processEntry env ns (buildNamespace env ns currIdx entries).1 n e =
      processEntry env ns currIdx n e ∧
    entryFresh env ns (buildNamespace env ns currIdx entries).1 (n, e) = none := by
  have halk := alookup_buildNamespace env ns currIdx hnk hmem
  cases hpe : processEntry env ns currIdx n e with
  | some c =>
    rw [hpe] at halk
    have hv : c.resourceVersion = e.v := processEntry_version hpe
    have hpe2 : processEntry env ns (buildNamespace env ns currIdx entries).1 n e = some c := by
      unfold processEntry
      simp only [halk]
      rw [if_pos hv]
    refine ⟨hpe2, ?_⟩
    have hif : entryIsFresh (buildNamespace env ns currIdx entries).1 n e = false := by
      unfold entryIsFresh
      simp only [halk]
      simp [hv]
    unfold entryFresh
    simp only [hpe2, hif]
  | none =>
    rw [hpe] at halk
    have hff := processEntry_none_fresh hpe
    have hpe2 : processEntry env ns (buildNamespace env ns currIdx entries).1 n e = none := by
      unfold processEntry
      simp only [halk]
      exact hff
    refine ⟨hpe2, ?_⟩
    unfold entryFresh
    simp only [hpe2]

theorem buildNamespace_idem (env : PluginEnv) (ns : String)
    (currIdx : List (String × Consumer)) (entries : NamespaceSnapshot)
    (hnk : NodupKeys entries) :
    buildNamespace env ns (buildNamespace env ns currIdx entries).1 entries =
      ((buildNamespace env ns currIdx entries).1, []) := by
  rw [buildNamespace_eq env ns (buildNamespace env ns currIdx entries).1 entries hnk]
  have h1 : entries.filterMap (entryResult env ns (buildNamespace env ns currIdx entries).1) =
      (buildNamespace env ns currIdx entries).1 := by
    have hc : ∀ a ∈ entries, entryResult env ns (buildNamespace env ns currIdx entries).1 a =
        entryResult env ns currIdx a := by
      intro a ha
      have hpe := (processEntry_idem env ns currIdx hnk
        (show (a.1, a.2) ∈ entries from ha)).1
      simp [entryResult, hpe]
    rw [filterMap_congr_mem hc, buildNamespace_eq env ns currIdx entries hnk]
  have h2 : entries.filterMap (entryFresh env ns (buildNamespace env ns currIdx entries).1) = [] := by
    refine filterMap_nil_of_none ?_
    intro a ha
    exact (processEntry_idem env ns currIdx hnk (show (a.1, a.2) ∈ entries from ha)).2
  rw [h1, h2]

/-! ### Idempotence across namespaces, fresh-list membership, names, skipping -/

theorem foldl_phase1_id (env : PluginEnv) :
    ∀ (S : Snapshot) (acc : ResourceIndex × List (String × String)),
      (∀ p ∈ S, ∃ curr, alookup acc.1 (p : String × NamespaceSnapshot).1 = some curr ∧
        buildNamespace env p.1 curr p.2 = (curr, [])) →
      S.foldl (phase1Step env) acc = acc := by
  intro S
  induction S with
  | nil => intro acc _; rfl
  | cons p rest ih =>
    intro acc h
    obtain ⟨curr, hl, hbn⟩ := h p (List.mem_cons_self p rest)
    have hstep : phase1Step env acc p = acc := by
      simp only [phase1Step, hl, Option.getD_some, hbn, List.map_nil, List.append_nil]
      rw [aset_self hl]
    rw [List.foldl_cons, hstep]
    exact ih acc (fun q hq => h q (List.mem_cons_of_mem _ hq))

theorem phase1_idem (env : PluginEnv) (rI : ResourceIndex) (S : Snapshot)
    (hnkS : NodupKeys S)
    (hnkE : ∀ p ∈ S, NodupKeys (p : String × NamespaceSnapshot).2) :
    phase1 env (phase1 env rI S).1 S = ((phase1 env rI S).1, []) := by
  refine foldl_phase1_id env S _ ?_
  intro p hp
  refine ⟨(buildNamespace env p.1 ((alookup rI p.1).getD []) p.2).1, ?_, ?_⟩
  · exact alookup_foldl_phase1_mem env S (rI, []) p.1 p.2 hnkS
      (show (p.1, p.2) ∈ S from hp)
  · exact buildNamespace_idem env p.1 _ p.2 (hnkE p hp)

theorem nodupkeys_mem_unique {α : Type} {l : List (String × α)} (hnk : NodupKeys l)
    {k : String} {a b : α} (ha : (k, a) ∈ l) (hb : (k, b) ∈ l) : a = b := by
  have h1 := mem_alookup hnk ha
  have h2 := mem_alookup hnk hb
  rw [h1] at h2
  exact Option.some.inj h2

theorem mem_collectFresh {env : PluginEnv} {rI : ResourceIndex} :
    ∀ {S : Snapshot} {pr : String × String}, pr ∈ collectFresh env rI S →
      ∃ p ∈ S, pr.1 = (p : String × NamespaceSnapshot).1 ∧
        pr.2 ∈ (buildNamespace env p.1 ((alookup rI p.1).getD []) p.2).2 := by
  intro S
  induction S with
  | nil => intro pr h; simp [collectFresh] at h
  | cons p rest ih =>
    intro pr h
    simp only [collectFresh, List.mem_append] at h
    cases h with
    | inl h =>
      simp only [freshOf, List.mem_map] at h
      obtain ⟨n, hn, he⟩ := h
      refine ⟨p, List.mem_cons_self p rest, ?_, ?_⟩
      · rw [← he]
      · rw [← he]
        exact hn
    | inr h =>
      obtain ⟨q, hq, h1, h2⟩ := ih h
      exact ⟨q, List.mem_cons_of_mem _ hq, h1, h2⟩

theorem mem_filterMap_entryFresh {env : PluginEnv} {ns : String}
    {currIdx : List (String × Consumer)} {entries : NamespaceSnapshot} {n : String}
    (h : n ∈ entries.filterMap (entryFresh env ns currIdx)) :
    ∃ e, (n, e) ∈ entries ∧ entryIsFresh currIdx n e = true := by
  rw [List.mem_filterMap] at h
  obtain ⟨a, ha, hf⟩ := h
  cases hpe : processEntry env ns currIdx a.1 a.2 with
  | none =>
    unfold entryFresh at hf
    simp only [hpe] at hf
    exact Option.noConfusion hf
  | some c =>
    cases hif : entryIsFresh currIdx a.1 a.2 with
    | false =>
      unfold entryFresh at hf
      simp only [hpe, hif] at hf
      exact Option.noConfusion hf
    | true =>
      unfold entryFresh at hf
      simp only [hpe, hif] at hf
      injection hf with hf
      have ha2 : (a.1, a.2) ∈ entries := ha
      rw [hf] at ha2 hif
      exact ⟨a.2, ha2, hif⟩

theorem initConfigs_name {env : PluginEnv} {c c2 : Consumer}
    (h : Consumer.initConfigs env c = .ok c2) : c2.consumerName = c.consumerName := by
  unfold Consumer.initConfigs at h
  cases h1 : initAuthConfigs env [] c.auth with
  | error msg =>
    simp only [h1] at h
    exact Except.noConfusion h
  | ok cc =>
    simp only [h1] at h
    cases h2 : initFilterConfigs env [] c.filters with
    | error msg =>
      simp only [h2] at h
      exact Except.noConfusion h
    | ok fc =>
      simp only [h2] at h
      injection h with h
      rw [← h]

theorem freshConsumer_name {env : PluginEnv} {ns : String} {e : SnapshotEntry}
    {c : Consumer} (h : freshConsumer env ns e = some c) :
    ∃ c0, Consumer.unmarshal {} e.d = .ok c0 ∧ c.consumerName = c0.consumerName := by
  unfold freshConsumer at h
  cases h1 : Consumer.unmarshal {} e.d with
  | error msg =>
    simp only [h1] at h
    exact Option.noConfusion h
  | ok c0 =>
    simp only [h1] at h
    cases h2 : Consumer.initConfigs env { c0 with namespace_ := ns } with
    | error msg =>
      simp only [h2] at h
      exact Option.noConfusion h
    | ok c1 =>
      simp only [h2] at h
      injection h with h
      refine ⟨c0, rfl, ?_⟩
      rw [← h]
      simpa using initConfigs_name h2

theorem processEntry_name {env : PluginEnv} {ns : String}
    {currIdx : List (String × Consumer)} {n : String} {e : SnapshotEntry} {c : Consumer}
    (h : processEntry env ns currIdx n e = some c)
    (hcurr : ∀ q ∈ currIdx, (q : String × Consumer).2.consumerName = q.1)
    (hsnap : ∀ c0 : Consumer, Consumer.unmarshal {} e.d = .ok c0 → c0.consumerName = n) :
    c.consumerName = n := by
  unfold processEntry at h
  cases hl : alookup currIdx n with
  | some curr =>
    simp only [hl] at h
    by_cases hv : curr.resourceVersion = e.v
    · rw [if_pos hv] at h
      injection h with h
      subst h
      exact hcurr (n, curr) (alookup_mem hl)
    · rw [if_neg hv] at h
      obtain ⟨c0, hu, hn⟩ := freshConsumer_name h
      rw [hn]
      exact hsnap c0 hu
  | none =>
    simp only [hl] at h
    obtain ⟨c0, hu, hn⟩ := freshConsumer_name h
    rw [hn]
    exact hsnap c0 hu

theorem foldl_stepEntry_names (env : PluginEnv) (ns : String)
    (currIdx : List (String × Consumer))
    (hcurr : ∀ q ∈ currIdx, (q : String × Consumer).2.consumerName = q.1) :
    ∀ (entries : NamespaceSnapshot) (acc : List (String × Consumer) × List String),
      (∀ r ∈ entries, ∀ c : Consumer,
        Consumer.unmarshal {} (r : String × SnapshotEntry).2.d = .ok c →
        c.consumerName = r.1) →
      (∀ q ∈ acc.1, (q : String × Consumer).2.consumerName = q.1) →
      ∀ q ∈ (entries.foldl (stepEntry env ns currIdx) acc).1,
        (q : String × Consumer).2.consumerName = q.1 := by
  intro entries
  induction entries with
  | nil => intro acc _ hacc q hq; exact hacc q hq
  | cons r rest ih =>
    intro acc hsnap hacc q hq
    refine ih (stepEntry env ns currIdx acc r)
      (fun r2 h2 => hsnap r2 (List.mem_cons_of_mem _ h2)) ?_ q hq
    intro q2 hq2
    cases hpe : processEntry env ns currIdx r.1 r.2 with
    | none =>
      simp only [stepEntry, hpe] at hq2
      exact hacc q2 hq2
    | some c =>
      simp only [stepEntry, hpe] at hq2
      rcases mem_aset hq2 with h2 | h2
      · exact hacc q2 h2
      · rw [h2]
        exact processEntry_name hpe hcurr
          (fun c0 hu => hsnap r (List.mem_cons_self r rest) c0 hu)

theorem foldl_phase1_names (env : PluginEnv) :
    ∀ (S : Snapshot) (acc : ResourceIndex × List (String × String)),
      SnapNames S →
      (∀ q ∈ acc.1, ∀ r ∈ (q : String × List (String × Consumer)).2,
        (r : String × Consumer).2.consumerName = r.1) →
      ∀ q ∈ (S.foldl (phase1Step env) acc).1,
        ∀ r ∈ (q : String × List (String × Consumer)).2,
          (r : String × Consumer).2.consumerName = r.1 := by
  intro S
  induction S with
  | nil => intro acc _ hacc q hq; exact hacc q hq
  | cons p rest ih =>
    intro acc hsnap hacc q hq
    refine ih (phase1Step env acc p)
      (fun p2 h2 r2 hr2 c hc => hsnap p2 (List.mem_cons_of_mem _ h2) r2 hr2 c hc) ?_ q hq
    intro q2 hq2 r2 hr2
    rw [phase1Step_fst] at hq2
    rcases mem_aset hq2 with h2 | h2
    · exact hacc q2 h2 r2 hr2
    · rw [h2] at hr2
      have hcurr : ∀ q3 ∈ (alookup acc.1 p.1).getD [],
          (q3 : String × Consumer).2.consumerName = q3.1 := by
        cases hl : alookup acc.1 p.1 with
        | none => intro q3 hq3; simp at hq3
        | some m =>
          intro q3 hq3
          exact hacc (p.1, m) (alookup_mem hl) q3 hq3
      have hsnapP : ∀ r3 ∈ p.2, ∀ c : Consumer,
          Consumer.unmarshal {} (r3 : String × SnapshotEntry).2.d = .ok c →
          c.consumerName = r3.1 :=
        fun r3 hr3 c hc => hsnap p (List.mem_cons_self p rest) r3 hr3 c hc
      exact foldl_stepEntry_names env p.1 _ hcurr p.2 ([], []) hsnapP
        (by intro q3 hq3; simp at hq3) r2 hr2

theorem mem_buildNamespace_keys (env : PluginEnv) (ns : String)
    (currIdx : List (String × Consumer)) :
    ∀ (entries : NamespaceSnapshot) (acc : List (String × Consumer) × List String)
      (q : String × Consumer),
      q ∈ (entries.foldl (stepEntry env ns currIdx) acc).1 →
      q ∈ acc.1 ∨ q.1 ∈ entries.map Prod.fst := by
  intro entries
  induction entries with
  | nil => intro acc q h; exact Or.inl h
  | cons r rest ih =>
    intro acc q h
    rcases ih (stepEntry env ns currIdx acc r) q h with h2 | h2
    · cases hpe : processEntry env ns currIdx r.1 r.2 with
      | none =>
        simp only [stepEntry, hpe] at h2
        exact Or.inl h2
      | some c =>
        simp only [stepEntry, hpe] at h2
        rcases mem_aset h2 with h3 | h3
        · exact Or.inl h3
        · refine Or.inr ?_
          rw [h3]
          simp
    · refine Or.inr ?_
      simp only [List.map_cons, List.mem_cons]
      exact Or.inr h2

theorem alookup_buildNamespace_none (env : PluginEnv) (ns : String)
    (currIdx : List (String × Consumer)) (entries : NamespaceSnapshot) {n : String}
    (h : n ∉ entries.map Prod.fst) :
    alookup (buildNamespace env ns currIdx entries).1 n = none := by
  cases halk : alookup (buildNamespace env ns currIdx entries).1 n with
  | none => rfl
  | some c =>
    have hmem := alookup_mem halk
    rcases mem_buildNamespace_keys env ns currIdx entries ([], []) (n, c) hmem with h2 | h2
    · simp at h2
    · exact absurd h2 h

theorem foldl_skip {α β : Type} (f : β → α → β) (x : α) (hid : ∀ acc, f acc x = acc)
    (l₁ l₂ : List α) (a : β) : (l₁ ++ x :: l₂).foldl f a = (l₁ ++ l₂).foldl f a := by
  rw [List.foldl_append, List.foldl_append, List.foldl_cons, hid]

theorem stepEntry_id (env : PluginEnv) (ns : String)
    (currIdx : List (String × Consumer)) {p : String × SnapshotEntry}
    (h : processEntry env ns currIdx p.1 p.2 = none)
    (acc : List (String × Consumer) × List String) :
    stepEntry env ns currIdx acc p = acc := by
  simp [stepEntry, h]

/-! ### Serialization round trip -/

theorem decodeAuthInto_strs (l : List (String × String)) :
    ∀ acc, decodeAuthInto acc (l.map (fun p => (p.1, JsonVal.str p.2))) =
      .ok (l.foldl (fun m p => aset m p.1 p.2) acc) := by
  induction l with
  | nil => intro acc; rfl
  | cons p rest ih =>
    obtain ⟨k, v⟩ := p
    intro acc
    simp only [List.map_cons, decodeAuthInto, List.foldl_cons]
    exact ih _

theorem filterConfig_fromJson_toJson (fc : FilterConfig) :
    FilterConfig.fromJson fc.toJson = .ok fc := by
  obtain ⟨cfg⟩ := fc
  rfl

theorem decodeFiltersInto_ok (l : List (String × FilterConfig)) :
    ∀ acc, decodeFiltersInto acc (l.map (fun p => (p.1, p.2.toJson))) =
      .ok (l.foldl (fun m p => aset m p.1 p.2) acc) := by
  induction l with
  | nil => intro acc; rfl
  | cons p rest ih =>
    obtain ⟨k, fc⟩ := p
    intro acc
    simp only [List.map_cons, decodeFiltersInto, filterConfig_fromJson_toJson,
      List.foldl_cons]
    exact ih _

theorem unmarshalFields_marshal (c0 c : Consumer) :
    unmarshalFields c0 [("name", JsonVal.str c.consumerName),
      ("auth", marshalAuth c.auth), ("filters", marshalFilters c.filters)] =
      .ok { c0 with
            consumerName := c.consumerName,
            auth := (sortByKey c.auth).foldl (fun m p => aset m p.1 p.2) c0.auth,
            filters := (sortByKey c.filters).foldl (fun m p => aset m p.1 p.2) c0.filters } := by
  simp only [unmarshalFields, marshalAuth, marshalFilters, decodeAuthInto_strs,
    decodeFiltersInto_ok]

theorem unmarshal_marshal (c : Consumer) :
    Consumer.unmarshal {} (JsonDoc.val (Consumer.marshal c)) =
      .ok { consumerName := c.consumerName,
            auth := (sortByKey c.auth).foldl (fun m p => aset m p.1 p.2) [],
            filters := (sortByKey c.filters).foldl (fun m p => aset m p.1 p.2) [],
            namespace_ := "", resourceVersion := "",
            consumerConfigs := [], filterConfigs := [] } := by
  show unmarshalFields {} [("name", JsonVal.str c.consumerName),
      ("auth", marshalAuth c.auth), ("filters", marshalFilters c.filters)] = _
  rw [unmarshalFields_marshal]

theorem foldl_aset_nodup {α : Type} :
    ∀ (l : List (String × α)) (acc : List (String × α)),
      NodupKeys l → (∀ k, k ∈ l.map Prod.fst → k ∉ acc.map Prod.fst) →
      l.foldl (fun m p => aset m p.1 p.2) acc = acc ++ l := by
  intro l
  induction l with
  | nil => intro acc _ _; simp
  | cons p rest ih =>
    intro acc hnk hdisj
    have hnk2 := hnk
    unfold NodupKeys at hnk2
    simp only [List.map_cons, List.nodup_cons] at hnk2
    have hp1 : p.1 ∉ acc.map Prod.fst := hdisj p.1 (by simp)
    rw [List.foldl_cons, aset_eq_append p.2 hp1]
    have hdisj2 : ∀ k, k ∈ rest.map Prod.fst → k ∉ (acc ++ [(p.1, p.2)]).map Prod.fst := by
      intro k hk
      rw [List.map_append]
      simp only [List.map_cons, List.map_nil, List.mem_append, List.mem_singleton]
      push_neg
      exact ⟨hdisj k (by simp [hk]), fun he => hnk2.1 (he ▸ hk)⟩
    rw [ih (acc ++ [(p.1, p.2)]) hnk2.2 hdisj2, List.append_assoc]
    rfl

theorem roundtrip_auth_eq (c : Consumer) (hnk : NodupKeys c.auth) (k : String) :
    alookup ((sortByKey c.auth).foldl (fun m p => aset m p.1 p.2) []) k =
      alookup c.auth k := by
  have hperm := sortByKey_perm c.auth
  have hnks : NodupKeys (sortByKey c.auth) := nodupKeys_of_perm hperm.symm hnk
  rw [foldl_aset_nodup (sortByKey c.auth) [] hnks (by simp)]
  rw [List.nil_append]
  exact alookup_eq_of_perm hperm hnk k

theorem roundtrip_filters_eq (c : Consumer) (hnk : NodupKeys c.filters) (k : String) :
    alookup ((sortByKey c.filters).foldl (fun m p => aset m p.1 p.2) []) k =
      alookup c.filters k := by
  have hperm := sortByKey_perm c.filters
  have hnks : NodupKeys (sortByKey c.filters) := nodupKeys_of_perm hperm.symm hnk
  rw [foldl_aset_nodup (sortByKey c.filters) [] hnks (by simp)]
  rw [List.nil_append]
  exact alookup_eq_of_perm hperm hnk k

/-! ### LookupConsumer helpers -/

theorem lookupConsumer_eq (st : RegistryState) (ns p k : String)
    {nsIdx : List (String × List (String × Consumer))}
    (h : alookup st.scopeIndex ns = some nsIdx) :
    LookupConsumer st ns p k =
      (scopeLookup nsIdx p k, (scopeLookup nsIdx p k).isSome) := by
  unfold LookupConsumer scopeLookup
  simp only [h]
  cases h2 : alookup nsIdx p with
  | none => simp
  | some pIdx => rfl

theorem lookupConsumer_fst_some {st : RegistryState} {ns p k : String} {c : Consumer}
    (h : (LookupConsumer st ns p k).1 = some c) :
    ∃ nsIdx, alookup st.scopeIndex ns = some nsIdx ∧ scopeLookup nsIdx p k = some c := by
  unfold LookupConsumer at h
  cases h1 : alookup st.scopeIndex ns with
  | none =>
    simp only [h1] at h
    exact Option.noConfusion h
  | some nsIdx =>
    simp only [h1] at h
    cases h2 : alookup nsIdx p with
    | none =>
      simp only [h2] at h
      exact Option.noConfusion h
    | some pIdx =>
      simp only [h2] at h
      refine ⟨nsIdx, rfl, ?_⟩
      unfold scopeLookup
      simp only [h2]
      exact h

/-! ### The claims -/

/-- C6: Serialization round trip — `Marshal` is total (it cannot fail; the
embedding is a total function, mirroring the source comment), and
unmarshalling its output into a fresh Consumer succeeds and yields a
Consumer agreeing with the original on the persisted fields `name`, `auth`
and `filters`, the two maps compared pointwise (as Go maps, not lists). -/
theorem C6_roundtrip (c : Consumer) (h1 : NodupKeys c.auth)
    (h2 : NodupKeys c.filters) :
    ∃ c2, Consumer.unmarshal {} (JsonDoc.val (Consumer.marshal c)) = .ok c2 ∧
      c2.consumerName = c.consumerName ∧
      (∀ k, alookup c2.auth k = alookup c.auth k) ∧
      (∀ k, alookup c2.filters k = alookup c.filters k) := by
  refine ⟨_, unmarshal_marshal c, rfl, ?_, ?_⟩
  · intro k
    exact roundtrip_auth_eq c h1 k
  · intro k
    exact roundtrip_filters_eq c h2 k

/-- C6 witness: the round trip evaluated at a concrete consumer. -/
theorem C6_roundtrip_witness :
    ∃ c2, Consumer.unmarshal {} (JsonDoc.val (Consumer.marshal
        { consumerName := "alice", auth := [("keyAuth", "abc")], filters := [] })) =
      .ok c2 ∧
      c2.consumerName = "alice" ∧
      (∀ k, alookup c2.auth k = alookup [("keyAuth", "abc")] k) ∧
      (∀ k, alookup c2.filters k = alookup ([] : List (String × FilterConfig)) k) :=
  C6_roundtrip { consumerName := "alice", auth := [("keyAuth", "abc")], filters := [] }
    (by decide) (by decide)

/-- C10: Marshal emits exactly the members `name`, `auth`, `filters` (in
that order); namespace, resourceVersion and the parsed config fields are
never serialized, so a fresh unmarshal of the output always yields empty
`namespace`/`resourceVersion` and unset parsed configs, whatever their
values in `c`. -/
theorem C10_marshal_persisted_only (c : Consumer) :
    (match Consumer.marshal c with
      | .obj fields => fields.map Prod.fst
      | _ => []) = ["name", "auth", "filters"] ∧
    ∃ c2, Consumer.unmarshal {} (JsonDoc.val (Consumer.marshal c)) = .ok c2 ∧
      c2.namespace_ = "" ∧ c2.resourceVersion = "" ∧
      c2.consumerConfigs = [] ∧ c2.filterConfigs = [] :=
  ⟨rfl, _, unmarshal_marshal c, rfl, rfl, rfl, rfl⟩

/-- C9 counterexample: a missing plugin (`envNone`) and an existing plugin
without consumer capability (`envOther`) make `InitConfigs` fail with the
SAME error string `plugin gateKey is not for consumer` — the two failure
causes are not distinguishable from the produced error, refuting the
claim's distinct `UnknownAuthPluginError` / `NotAuthCapableError`. -/
theorem C9_counterexample :
    Consumer.initConfigs envNone
        { consumerName := "alice", auth := [("gateKey", "x")] } =
      .error "plugin gateKey is not for consumer" ∧
    Consumer.initConfigs envOther
        { consumerName := "alice", auth := [("gateKey", "x")] } =
      .error "plugin gateKey is not for consumer" := by
  constructor
  · rfl
  · rfl

/-- C9 amended: when the named plugin is absent, or present but not
consumer-capable, `InitConfigs` fails with the one error
`plugin <name> is not for consumer` — identically in both cases (the code
does not distinguish them; the type assertion merges both). -/
theorem C9_amended (env : PluginEnv) (name data : String) (c : Consumer)
    (rest : List (String × String)) (hauth : c.auth = (name, data) :: rest)
    (h : env.loadHttpPlugin name = none ∨ env.loadHttpPlugin name = some .other) :
    Consumer.initConfigs env c =
      .error ("plugin " ++ name ++ " is not for consumer") := by
  unfold Consumer.initConfigs
  rw [hauth]
  have hia : initAuthConfigs env [] ((name, data) :: rest) =
      .error ("plugin " ++ name ++ " is not for consumer") := by
    unfold initAuthConfigs
    rcases h with h | h <;> simp only [h]
  rw [hia]

/-- C9 amended, witness: the amended behavior at a concrete consumer and
registry. -/
theorem C9_amended_witness :
    ({ consumerName := "alice", auth := [("gateKey", "x")] } : Consumer).auth =
      ("gateKey", "x") :: [] ∧
    (envNone.loadHttpPlugin "gateKey" = none ∨
      envNone.loadHttpPlugin "gateKey" = some .other) ∧
    Consumer.initConfigs envNone { consumerName := "alice", auth := [("gateKey", "x")] } =
      .error ("plugin " ++ "gateKey" ++ " is not for consumer") :=
  ⟨rfl, Or.inl rfl,
    C9_amended envNone "gateKey" "x" _ [] rfl (Or.inl rfl)⟩

/-- C7: Lookup totality and absence handling — for every registry state,
whenever the namespace, the plugin, or the key is absent from the Scope
Index, lookup returns `(none, false)`; and in the initial state (before
any update has run, `scopeIndex` still nil) every lookup returns
`(none, false)`.  `LookupConsumer` is a total pure function: no error
value exists in its type and no index is written. -/
theorem C7_lookup_total (st : RegistryState) (ns pluginName key : String)
    (h : scopeAbsent st ns pluginName key) :
    LookupConsumer st ns pluginName key = (none, false) ∧
    LookupConsumer initialRegistryState ns pluginName key = (none, false) := by
  constructor
  · unfold LookupConsumer
    rcases h with h | ⟨nsIdx, h1, h2⟩ | ⟨nsIdx, pIdx, h1, h2, h3⟩
    · simp [h]
    · simp [h1, h2]
    · simp [h1, h2, h3]
  · rfl

/-- C7 witness: lookup in the initial registry state. -/
theorem C7_lookup_total_witness :
    scopeAbsent initialRegistryState "ns1" "keyAuth" "abc" ∧
    LookupConsumer initialRegistryState "ns1" "keyAuth" "abc" = (none, false) :=
  ⟨Or.inl rfl,
    (C7_lookup_total initialRegistryState "ns1" "keyAuth" "abc" (Or.inl rfl)).1⟩

/-- C8: Namespace frame condition — `update` modifies the Resource Index
only at namespace keys present in the snapshot; a namespace absent from
the snapshot keeps exactly its previous Resource Index entry (and hence
its Consumers). -/
theorem C8_namespace_frame (env : PluginEnv) (st : RegistryState) (S : Snapshot)
    (ns : String) (h : ns ∉ S.map Prod.fst) :
    alookup (updateConsumers env st S).state.resourceIndex ns =
      alookup st.resourceIndex ns := by
  show alookup (phase1 env st.resourceIndex S).1 ns = _
  exact alookup_foldl_phase1 env S (st.resourceIndex, []) ns h

/-- C8 witness: a two-namespace state updated with a one-namespace
snapshot leaves the other namespace untouched. -/
theorem C8_namespace_frame_witness :
    ("ns2" : String) ∉ ([("ns1", [])] : Snapshot).map Prod.fst ∧
    alookup (updateConsumers envKey initialRegistryState
      [("ns1", [])]).state.resourceIndex "ns2" =
      alookup initialRegistryState.resourceIndex "ns2" :=
  ⟨by decide,
    C8_namespace_frame envKey initialRegistryState [("ns1", [])] "ns2" (by decide)⟩

/-- C2: Idempotent update — applying the same snapshot twice in a row
yields, after the second application, exactly the Resource Index and Scope
Index of the first (no duplication, no drift), and the second application
constructs no Consumer afresh: every consumer it stores is taken from the
existing index (the re-parse instrumentation is empty). -/
theorem C2_idempotent (env : PluginEnv) (st : RegistryState) (S : Snapshot)
    (hnkS : NodupKeys S)
    (hnkE : ∀ p ∈ S, NodupKeys (p : String × NamespaceSnapshot).2) :
    (updateConsumers env (updateConsumers env st S).state S).state =
      (updateConsumers env st S).state ∧
    (updateConsumers env (updateConsumers env st S).state S).freshConsumers = [] := by
  have hp : phase1 env (phase1 env st.resourceIndex S).1 S =
      ((phase1 env st.resourceIndex S).1, []) :=
    phase1_idem env st.resourceIndex S hnkS hnkE
  constructor
  · show (⟨(phase1 env (phase1 env st.resourceIndex S).1 S).1,
        (buildScope (phase1 env (phase1 env st.resourceIndex S).1 S).1).1⟩ : RegistryState) =
      ⟨(phase1 env st.resourceIndex S).1,
        (buildScope (phase1 env st.resourceIndex S).1).1⟩
    rw [hp]
  · show (phase1 env (phase1 env st.resourceIndex S).1 S).2 = []
    rw [hp]

/-- C2 witness: a concrete double update. -/
theorem C2_idempotent_witness :
    NodupKeys snapAlice ∧
    (∀ p ∈ snapAlice, NodupKeys (p : String × NamespaceSnapshot).2) ∧
    ((updateConsumers envKey (updateConsumers envKey initialRegistryState snapAlice).state
        snapAlice).state = (updateConsumers envKey initialRegistryState snapAlice).state ∧
      (updateConsumers envKey (updateConsumers envKey initialRegistryState snapAlice).state
        snapAlice).freshConsumers = []) :=
  ⟨by decide, by decide,
    C2_idempotent envKey initialRegistryState snapAlice (by decide) (by decide)⟩

/-- C3: Version-gated reuse — if a consumer is present in the Resource
Index after the first update and its snapshot entry's version token is
unchanged in the second snapshot, then after the second update the very
same Consumer object is stored (taken from the current index through the
reuse branch), and the entry is not re-parsed: it does not appear among
the second run's freshly constructed consumers. -/
theorem C3_version_gated_reuse (env : PluginEnv) (st : RegistryState)
    (S₁ S₂ : Snapshot) (ns n : String) (entries₁ entries₂ : NamespaceSnapshot)
    (e₁ e₂ : SnapshotEntry) (c : Consumer)
    (hnkS₁ : NodupKeys S₁) (hnkE₁ : NodupKeys entries₁)
    (hnkS₂ : NodupKeys S₂) (hnkE₂ : NodupKeys entries₂)
    (hm₁ : (ns, entries₁) ∈ S₁) (hm₂ : (ns, entries₂) ∈ S₂)
    (he₁ : (n, e₁) ∈ entries₁) (he₂ : (n, e₂) ∈ entries₂)
    (hv : e₁.v = e₂.v)
    (hpresent : ∃ m,
      alookup (updateConsumers env st S₁).state.resourceIndex ns = some m ∧
      alookup m n = some c) :
    (∃ m₂, alookup (updateConsumers env (updateConsumers env st S₁).state
        S₂).state.resourceIndex ns = some m₂ ∧ alookup m₂ n = some c) ∧
    (ns, n) ∉ (updateConsumers env (updateConsumers env st S₁).state S₂).freshConsumers := by
  obtain ⟨m, hm, hmn⟩ := hpresent
  have hm' : alookup (updateConsumers env st S₁).state.resourceIndex ns =
      some (buildNamespace env ns ((alookup st.resourceIndex ns).getD []) entries₁).1 := by
    show alookup (phase1 env st.resourceIndex S₁).1 ns = _
    exact alookup_foldl_phase1_mem env S₁ (st.resourceIndex, []) ns entries₁ hnkS₁ hm₁
  have hmeq : m = (buildNamespace env ns ((alookup st.resourceIndex ns).getD []) entries₁).1 := by
    rw [hm] at hm'
    exact Option.some.inj hm'
  subst hmeq
  have hpe₁ : processEntry env ns ((alookup st.resourceIndex ns).getD []) n e₁ = some c := by
    rw [← alookup_buildNamespace env ns _ hnkE₁ he₁]
    exact hmn
  have hcv : c.resourceVersion = e₂.v := (processEntry_version hpe₁).trans hv
  have hpe₂ : processEntry env ns
      (buildNamespace env ns ((alookup st.resourceIndex ns).getD []) entries₁).1 n e₂ =
      some c := by
    unfold processEntry
    simp only [hmn]
    rw [if_pos hcv]
  have hm₂' : alookup (updateConsumers env (updateConsumers env st S₁).state
      S₂).state.resourceIndex ns =
      some (buildNamespace env ns
        ((alookup (updateConsumers env st S₁).state.resourceIndex ns).getD []) entries₂).1 := by
    show alookup (phase1 env (updateConsumers env st S₁).state.resourceIndex S₂).1 ns = _
    exact alookup_foldl_phase1_mem env S₂
      ((updateConsumers env st S₁).state.resourceIndex, []) ns entries₂ hnkS₂ hm₂
  rw [hm', Option.getD_some] at hm₂'
  have hnotfresh : (ns, n) ∉ (updateConsumers env (updateConsumers env st S₁).state
      S₂).freshConsumers := by
    intro hmem
    have hfr : (updateConsumers env (updateConsumers env st S₁).state S₂).freshConsumers =
        collectFresh env (updateConsumers env st S₁).state.resourceIndex S₂ := by
      show (phase1 env (updateConsumers env st S₁).state.resourceIndex S₂).2 = _
      have hfs := foldl_phase1_snd env S₂
        ((updateConsumers env st S₁).state.resourceIndex, []) hnkS₂
      simpa using hfs
    rw [hfr] at hmem
    obtain ⟨p, hp, h1, h2⟩ := mem_collectFresh hmem
    have hns : p.1 = ns := h1.symm
    have hp' : (ns, p.2) ∈ S₂ := by
      rw [show (ns : String) = p.1 from hns.symm]
      exact hp
    have hent : p.2 = entries₂ := nodupkeys_mem_unique hnkS₂ hp' hm₂
    rw [hns, hent, hm', Option.getD_some] at h2
    have h2' : (n : String) ∈ entries₂.filterMap (entryFresh env ns
        (buildNamespace env ns ((alookup st.resourceIndex ns).getD []) entries₁).1) := by
      rw [buildNamespace_eq env ns _ entries₂ hnkE₂] at h2
      exact h2
    obtain ⟨e, hee, hif⟩ := mem_filterMap_entryFresh h2'
    have heq : e = e₂ := nodupkeys_mem_unique hnkE₂ hee he₂
    rw [heq] at hif
    have hfalse : entryIsFresh
        (buildNamespace env ns ((alookup st.resourceIndex ns).getD []) entries₁).1 n e₂ =
        false := by
      unfold entryIsFresh
      simp only [hmn]
      simp [hcv]
    rw [hfalse] at hif
    exact Bool.noConfusion hif
  refine ⟨⟨_, hm₂', ?_⟩, hnotfresh⟩
  rw [alookup_buildNamespace env ns _ hnkE₂ he₂]
  exact hpe₂

/-- C3 witness: the same snapshot applied twice; `alice` (version `1`) is
present after the first update and reused by the second. -/
theorem C3_version_gated_reuse_witness :
    (∃ m₂, alookup (updateConsumers envKey
        (updateConsumers envKey initialRegistryState snapAlice).state
        snapAlice).state.resourceIndex "ns1" = some m₂ ∧
      alookup m₂ "alice" = some cAlice) ∧
    ("ns1", "alice") ∉ (updateConsumers envKey
      (updateConsumers envKey initialRegistryState snapAlice).state
      snapAlice).freshConsumers :=
  C3_version_gated_reuse envKey initialRegistryState snapAlice snapAlice "ns1" "alice"
    [("alice", ⟨"1", dAlice⟩)] [("alice", ⟨"1", dAlice⟩)] ⟨"1", dAlice⟩ ⟨"1", dAlice⟩ cAlice
    (by decide) (by decide) (by decide) (by decide)
    (List.mem_cons_self _ _) (List.mem_cons_self _ _)
    (List.mem_cons_self _ _) (List.mem_cons_self _ _)
    rfl ⟨[("alice", cAlice)], rfl, rfl⟩

theorem alookup_phase1_middle (env : PluginEnv) (rI : ResourceIndex)
    (A B : Snapshot) (ns : String) (entries : NamespaceSnapshot)
    (hnsA : ns ∉ A.map Prod.fst) (hnsB : ns ∉ B.map Prod.fst) :
    alookup (phase1 env rI (A ++ (ns, entries) :: B)).1 ns =
      some (buildNamespace env ns ((alookup rI ns).getD []) entries).1 := by
  unfold phase1
  rw [List.foldl_append, List.foldl_cons]
  rw [alookup_foldl_phase1 env B _ ns hnsB]
  have hcurr := alookup_foldl_phase1 env A (rI, []) ns hnsA
  show alookup (aset (A.foldl (phase1Step env) (rI, [])).1 ns
      (buildNamespace env ns
        ((alookup (A.foldl (phase1Step env) (rI, [])).1 ns).getD []) entries).1) ns =
    some (buildNamespace env ns ((alookup rI ns).getD []) entries).1
  rw [alookup_aset_self, hcurr]

/-- C1: Partial-failure isolation — a snapshot entry whose rebuild fails
(body unmarshal or config initialization, i.e. `freshConsumer` is `none`)
is skipped: the whole update outcome equals that of the same snapshot with
the failing entry removed, so the N sibling consumers and all lookups are
unaffected and no error reaches the caller (`updateConsumers` is total);
the failing name is absent from the rebuilt namespace map, which, when the
N siblings are well-formed, holds exactly those N consumers. -/
theorem C1_partial_failure (env : PluginEnv) (st : RegistryState)
    (A B : Snapshot) (ns : String) (l₁ l₂ : NamespaceSnapshot)
    (bad : String) (be : SnapshotEntry)
    (hnsA : ns ∉ A.map Prod.fst) (hnsB : ns ∉ B.map Prod.fst)
    (hfail : freshConsumer env ns be = none)
    (hattempt : entryIsFresh ((alookup st.resourceIndex ns).getD []) bad be = true)
    (hnk : NodupKeys (l₁ ++ (bad, be) :: l₂)) :
    updateConsumers env st (A ++ (ns, l₁ ++ (bad, be) :: l₂) :: B) =
      updateConsumers env st (A ++ (ns, l₁ ++ l₂) :: B) ∧
    (∃ m, alookup (updateConsumers env st
        (A ++ (ns, l₁ ++ (bad, be) :: l₂) :: B)).state.resourceIndex ns = some m ∧
      alookup m bad = none ∧
      ((∀ p ∈ l₁ ++ l₂, (processEntry env ns ((alookup st.resourceIndex ns).getD [])
          (p : String × SnapshotEntry).1 p.2).isSome) →
        m.length = (l₁ ++ l₂).length)) := by
  have hpe : processEntry env ns ((alookup st.resourceIndex ns).getD []) bad be = none :=
    processEntry_none_of_fresh_fail hattempt hfail
  have hcurr : alookup (A.foldl (phase1Step env) (st.resourceIndex, [])).1 ns =
      alookup st.resourceIndex ns :=
    alookup_foldl_phase1 env A (st.resourceIndex, []) ns hnsA
  have hbn : buildNamespace env ns
      ((alookup (A.foldl (phase1Step env) (st.resourceIndex, [])).1 ns).getD [])
      (l₁ ++ (bad, be) :: l₂) =
      buildNamespace env ns
      ((alookup (A.foldl (phase1Step env) (st.resourceIndex, [])).1 ns).getD [])
      (l₁ ++ l₂) := by
    rw [hcurr]
    exact foldl_skip _ (bad, be)
      (stepEntry_id env ns ((alookup st.resourceIndex ns).getD []) hpe) l₁ l₂ ([], [])
  have hstep : phase1Step env (A.foldl (phase1Step env) (st.resourceIndex, []))
      (ns, l₁ ++ (bad, be) :: l₂) =
      phase1Step env (A.foldl (phase1Step env) (st.resourceIndex, [])) (ns, l₁ ++ l₂) := by
    simp only [phase1Step]
    rw [hbn]
  have hphase : phase1 env st.resourceIndex (A ++ (ns, l₁ ++ (bad, be) :: l₂) :: B) =
      phase1 env st.resourceIndex (A ++ (ns, l₁ ++ l₂) :: B) := by
    unfold phase1
    rw [List.foldl_append, List.foldl_append, List.foldl_cons, List.foldl_cons, hstep]
  have hupd : updateConsumers env st (A ++ (ns, l₁ ++ (bad, be) :: l₂) :: B) =
      updateConsumers env st (A ++ (ns, l₁ ++ l₂) :: B) := by
    simp only [updateConsumers]
    rw [hphase]
  have hsub : (l₁ ++ l₂).Sublist (l₁ ++ (bad, be) :: l₂) :=
    (List.sublist_cons_self (bad, be) l₂).append_left l₁
  have hnkGood : NodupKeys (l₁ ++ l₂) := by
    unfold NodupKeys at hnk ⊢
    exact List.Nodup.sublist (hsub.map Prod.fst) hnk
  have hbadout : bad ∉ (l₁ ++ l₂).map Prod.fst := by
    unfold NodupKeys at hnk
    rw [List.map_append, List.map_cons] at hnk
    rw [List.map_append]
    intro hmem
    rcases List.mem_append.mp hmem with h | h
    · exact (List.nodup_append.mp hnk).2.2 h (List.mem_cons_self _ _)
    · exact (List.nodup_cons.mp (List.nodup_append.mp hnk).2.1).1 h
  have hval : alookup (updateConsumers env st
      (A ++ (ns, l₁ ++ (bad, be) :: l₂) :: B)).state.resourceIndex ns =
      some (buildNamespace env ns ((alookup st.resourceIndex ns).getD []) (l₁ ++ l₂)).1 := by
    rw [hupd]
    show alookup (phase1 env st.resourceIndex (A ++ (ns, l₁ ++ l₂) :: B)).1 ns = _
    exact alookup_phase1_middle env st.resourceIndex A B ns (l₁ ++ l₂) hnsA hnsB
  refine ⟨hupd, _, hval,
    alookup_buildNamespace_none env ns _ (l₁ ++ l₂) hbadout, ?_⟩
  intro hall
  rw [buildNamespace_eq env ns _ (l₁ ++ l₂) hnkGood]
  refine length_filterMap_all_isSome ?_
  intro p hp
  cases hq : processEntry env ns ((alookup st.resourceIndex ns).getD []) p.1 p.2 with
  | none =>
    have h2 := hall p hp
    rw [hq] at h2
    exact absurd h2 (by simp)
  | some c =>
    simp [entryResult, hq]

/-- C1 witness: a snapshot with the well-formed `alice` and a consumer
`bert` whose body is invalid JSON. -/
theorem C1_partial_failure_witness :
    (updateConsumers envKey initialRegistryState
        ([] ++ ("ns1", ([("alice", ⟨"1", dAlice⟩)] : NamespaceSnapshot) ++
          ("bert", (⟨"1", JsonDoc.invalid "oops"⟩ : SnapshotEntry)) :: []) :: []) =
      updateConsumers envKey initialRegistryState
        ([] ++ ("ns1", ([("alice", ⟨"1", dAlice⟩)] : NamespaceSnapshot) ++ []) :: [])) ∧
    (∃ m, alookup (updateConsumers envKey initialRegistryState
        ([] ++ ("ns1", ([("alice", ⟨"1", dAlice⟩)] : NamespaceSnapshot) ++
          ("bert", (⟨"1", JsonDoc.invalid "oops"⟩ : SnapshotEntry)) :: []) :: [])).state.resourceIndex
        "ns1" = some m ∧
      alookup m "bert" = none ∧
      ((∀ p ∈ ([("alice", ⟨"1", dAlice⟩)] : NamespaceSnapshot) ++ ([] : NamespaceSnapshot),
          (processEntry envKey "ns1" ((alookup initialRegistryState.resourceIndex "ns1").getD [])
            (p : String × SnapshotEntry).1 p.2).isSome) →
        m.length = (([("alice", ⟨"1", dAlice⟩)] : NamespaceSnapshot) ++
          ([] : NamespaceSnapshot)).length)) :=
  C1_partial_failure envKey initialRegistryState [] [] "ns1"
    [("alice", ⟨"1", dAlice⟩)] [] "bert" ⟨"1", JsonDoc.invalid "oops"⟩
    (by decide) (by decide) rfl rfl (by decide)

/-- C4: Collision policy (first writer wins) — when two consumers of the
same namespace claim the same `(plugin, key)` scope slot via their auth
configs' `Index()`, the rebuilt Scope Index keeps the entry written first
in iteration order: lookup returns the first claiming consumer (found =
true), and a collision for `(namespace, plugin, key)` is logged. -/
theorem C4_collision (env : PluginEnv) (st : RegistryState) (S : Snapshot)
    (ns p k : String) (consumers m₁ m₂ m₃ : List (String × Consumer))
    (q₁ q₂ : String × Consumer)
    (hnkRI : NodupKeys st.resourceIndex)
    (hcons : alookup (updateConsumers env st S).state.resourceIndex ns = some consumers)
    (hsplit : consumers = m₁ ++ q₁ :: m₂ ++ q₂ :: m₃)
    (hm₁ : consumerMatches q₁.2 p k = true)
    (hm₂ : consumerMatches q₂.2 p k = true)
    (hnkC : ∀ q ∈ consumers, NodupKeys (q : String × Consumer).2.consumerConfigs) :
    LookupConsumer (updateConsumers env st S).state ns p k =
      (firstMatch (consumers.map Prod.snd) p k, true) ∧
    ∃ r ∈ (updateConsumers env st S).collisions,
      r.ns = ns ∧ r.plugin = p ∧ r.key = k := by
  have hnkRI2 : NodupKeys (phase1 env st.resourceIndex S).1 :=
    nodupKeys_foldl_phase1 env S (st.resourceIndex, []) hnkRI
  have hmemRI : (ns, consumers) ∈ (phase1 env st.resourceIndex S).1 :=
    alookup_mem hcons
  have hscope : alookup (updateConsumers env st S).state.scopeIndex ns =
      some (buildNamespaceScope ns consumers).1 := by
    show alookup (buildScope (phase1 env st.resourceIndex S).1).1 ns = _
    exact alookup_foldl_scope_mem (phase1 env st.resourceIndex S).1 ([], []) ns consumers
      hnkRI2 hmemRI
  have hlook : LookupConsumer (updateConsumers env st S).state ns p k =
      (scopeLookup (buildNamespaceScope ns consumers).1 p k,
       (scopeLookup (buildNamespaceScope ns consumers).1 p k).isSome) :=
    lookupConsumer_eq _ ns p k hscope
  have hchar : scopeLookup (buildNamespaceScope ns consumers).1 p k =
      firstMatch (consumers.map Prod.snd) p k :=
    scopeLookup_buildNamespaceScope ns consumers p k hnkC
  have hsomeMatch : ∃ c2, firstMatch (consumers.map Prod.snd) p k = some c2 := by
    refine firstMatch_isSome (List.mem_map.mpr ⟨q₁, ?_, rfl⟩) hm₁
    rw [hsplit]
    exact List.mem_append_left _ (List.mem_append_right m₁ (List.mem_cons_self _ _))
  obtain ⟨c2, hc2⟩ := hsomeMatch
  constructor
  · rw [hlook, hchar, hc2]
    rfl
  · have hocc : ∃ x,
        scopeLookup ((m₁ ++ q₁ :: m₂).foldl (consumerStep ns) ([], [])).1 p k = some x := by
      rw [scopeLookup_foldl_consumerStep ns p k (m₁ ++ q₁ :: m₂) ([], []) ?_]
      · have hsm : ∃ c3, firstMatch ((m₁ ++ q₁ :: m₂).map Prod.snd) p k = some c3 := by
          refine firstMatch_isSome (List.mem_map.mpr ⟨q₁, ?_, rfl⟩) hm₁
          exact List.mem_append_right m₁ (List.mem_cons_self _ _)
        obtain ⟨c3, hc3⟩ := hsm
        refine ⟨c3, ?_⟩
        rw [hc3]
        rfl
      · intro q hq
        refine hnkC q ?_
        rw [hsplit]
        exact List.mem_append_left _ hq
    obtain ⟨x, hx⟩ := hocc
    have hrec : ∃ r ∈ (buildNamespaceScope ns consumers).2,
        r.ns = ns ∧ r.plugin = p ∧ r.key = k := by
      rw [hsplit]
      unfold buildNamespaceScope
      rw [List.foldl_append, List.foldl_cons]
      obtain ⟨r, hr, hprops⟩ := consumerStep_records ns _ q₂ hx hm₂
      exact ⟨r, mem_foldl_consumerStep_snd ns m₃ _ r hr, hprops⟩
    obtain ⟨r, hr, hprops⟩ := hrec
    refine ⟨r, ?_, hprops⟩
    have hcolls : (updateConsumers env st S).collisions =
        collectCollisions (phase1 env st.resourceIndex S).1 := by
      show (buildScope (phase1 env st.resourceIndex S).1).2 = _
      have hsn := foldl_scopeStep_snd (phase1 env st.resourceIndex S).1 ([], [])
      simpa using hsn
    rw [hcolls]
    exact mem_collectCollisions hmemRI hr

/-- C4 witness: `alice` and `bob` both claim `(keyAuth, abc)` in `ns1`;
lookup returns the first in iteration order and a collision is logged. -/
theorem C4_collision_witness :
    LookupConsumer (updateConsumers envKey initialRegistryState snapCollide).state
        "ns1" "keyAuth" "abc" =
      (firstMatch (([("alice", cAlice), ("bob", cBob)] :
        List (String × Consumer)).map Prod.snd) "keyAuth" "abc", true) ∧
    ∃ r ∈ (updateConsumers envKey initialRegistryState snapCollide).collisions,
      r.ns = "ns1" ∧ r.plugin = "keyAuth" ∧ r.key = "abc" :=
  C4_collision envKey initialRegistryState snapCollide "ns1" "keyAuth" "abc"
    [("alice", cAlice), ("bob", cBob)] [] [] []
    ("alice", cAlice) ("bob", cBob)
    (by decide) rfl rfl rfl rfl (by decide)

/-- C5: Deletion — a consumer name absent from a namespace's entries in
the incoming snapshot (while the namespace itself is present) is, after
the update, absent from that namespace's Resource Index map, and no
lookup in that namespace can return a consumer of that name (given that
stored consumers are named by their index keys, which holds whenever the
snapshot bodies carry their entry key as `name`, as the control plane
writes them). -/
theorem C5_deletion (env : PluginEnv) (st : RegistryState) (S : Snapshot)
    (ns n : String) (entries : NamespaceSnapshot)
    (hnkS : NodupKeys S) (hmem : (ns, entries) ∈ S)
    (hnkRI : NodupKeys st.resourceIndex)
    (hNC : ∀ q ∈ st.resourceIndex, ∀ r ∈ (q : String × List (String × Consumer)).2,
      (r : String × Consumer).2.consumerName = r.1)
    (hSN : SnapNames S)
    (habsent : n ∉ entries.map Prod.fst) :
    (∃ m, alookup (updateConsumers env st S).state.resourceIndex ns = some m ∧
      alookup m n = none) ∧
    (∀ p k c, (LookupConsumer (updateConsumers env st S).state ns p k).1 = some c →
      c.consumerName ≠ n) := by
  have hval : alookup (updateConsumers env st S).state.resourceIndex ns =
      some (buildNamespace env ns ((alookup st.resourceIndex ns).getD []) entries).1 := by
    show alookup (phase1 env st.resourceIndex S).1 ns = _
    exact alookup_foldl_phase1_mem env S (st.resourceIndex, []) ns entries hnkS hmem
  constructor
  · exact ⟨_, hval, alookup_buildNamespace_none env ns _ entries habsent⟩
  · intro p k c hlook
    obtain ⟨nsIdx, hns, hsl⟩ := lookupConsumer_fst_some hlook
    have hfrom := foldl_scope_fst_from (phase1 env st.resourceIndex S).1 ([], []) ns nsIdx
      (show alookup ((phase1 env st.resourceIndex S).1.foldl scopeStep ([], [])).1 ns =
        some nsIdx from hns)
    rcases hfrom with h0 | ⟨cs, hcs, hx⟩
    · exact absurd h0 (by simp [alookup])
    · have hnkRI2 : NodupKeys (phase1 env st.resourceIndex S).1 :=
        nodupKeys_foldl_phase1 env S (st.resourceIndex, []) hnkRI
      have hcseq : cs =
          (buildNamespace env ns ((alookup st.resourceIndex ns).getD []) entries).1 :=
        nodupkeys_mem_unique hnkRI2 hcs (alookup_mem hval)
      subst hx
      rw [hcseq] at hsl
      have hcin : c ∈ ((buildNamespace env ns
          ((alookup st.resourceIndex ns).getD []) entries).1).map Prod.snd :=
        scopeLookup_buildNamespaceScope_values ns _ hsl
      obtain ⟨r, hrmem, hrc⟩ := List.mem_map.mp hcin
      have hname : r.2.consumerName = r.1 := by
        have hNC2 := foldl_phase1_names env S (st.resourceIndex, []) hSN
          (fun q hq r2 hr2 => hNC q hq r2 hr2)
        exact hNC2
          (ns, (buildNamespace env ns ((alookup st.resourceIndex ns).getD []) entries).1)
          (alookup_mem hval) r hrmem
      have hkey : r.1 ∈ entries.map Prod.fst := by
        rcases mem_buildNamespace_keys env ns ((alookup st.resourceIndex ns).getD [])
          entries ([], []) r hrmem with h2 | h2
        · simp at h2
        · exact h2
      intro hcontra
      rw [← hrc, hname] at hcontra
      exact habsent (hcontra ▸ hkey)

/-- C5 witness: after an update of `ns1` containing only `alice`, the
name `bob` is absent from the Resource Index and unreachable by lookup. -/
theorem C5_deletion_witness :
    (∃ m, alookup (updateConsumers envKey initialRegistryState
        snapAlice).state.resourceIndex "ns1" = some m ∧ alookup m "bob" = none) ∧
    (∀ p k c, (LookupConsumer (updateConsumers envKey initialRegistryState
        snapAlice).state "ns1" p k).1 = some c → c.consumerName ≠ "bob") :=
  C5_deletion envKey initialRegistryState snapAlice "ns1" "bob"
    [("alice", ⟨"1", dAlice⟩)]
    (by decide) (List.mem_cons_self _ _) (by decide)
    (by
      intro q hq r hr
      exact absurd hq (by simp [initialRegistryState]))
    (by
      intro q hq r hr c hc
      have hq2 : q = ("ns1", [("alice", (⟨"1", dAlice⟩ : SnapshotEntry))]) :=
        List.mem_singleton.mp hq
      subst hq2
      have hr2 : r = ("alice", (⟨"1", dAlice⟩ : SnapshotEntry)) := List.mem_singleton.mp hr
      subst hr2
      have hc2 : Except.ok (⟨"alice", [("keyAuth", "abc")], [], "", "", [], []⟩ : Consumer) =
          Except.ok c := hc
      injection hc2 with hc3
      rw [← hc3])
    (by decide)

end HTNN
